import Mathlib

/-!
The dependency-policy checker and the component graph emitter of dfence.

A shallow embedding of `internal/policy/checker.go`, `cmd/enforce.go` and
`cmd/depGraph.go`, followed by the properties proved about it.

Conventions of the embedding.

* A Go `error` is represented by its message (`GoError`), the text that
  `Error()` and the `%v` verb print.
* Calls on the logger and sends on the result channel are effects; a function
  that performs them returns the ordered list of `Event`s it performed.
* Slices are lists, `append(s, x...)` is `++`.
* The dependency resolver (`depth.Tree.Resolve`) is an external library; it is a
  parameter `resolve : String → Except GoError Pkg` returning the resolved root.
-/

namespace Dfence

/-! ## Data model -/

/-- A Go error value, represented by its message. -/
abbrev GoError := String

/-- Modelled from the spec: the pattern type of the policy package (its declaration is
not part of the sources at hand). A pattern keeps the text it was compiled from. -/
structure Pattern where
  raw : String
  deriving DecidableEq, Repr

/-- Modelled from the spec: anchored glob matching on characters, where the only
metacharacter is the star (code point 42), which stands for any run of characters,
the empty one included. -/
def globMatch : List Char → List Char → Bool
  | [], s => s.isEmpty
  | p :: ps, s =>
    if p = Char.ofNat 42 then
      (List.range (s.length + 1)).any (fun k => globMatch ps (s.drop k))
    else
      match s with
      | [] => false
      | c :: cs => p == c && globMatch ps cs

/-- Modelled from the spec: the method `match` of a pattern, true iff the whole name is
obtained from the pattern by replacing each star by some string. -/
def Pattern.matches (t : Pattern) (name : String) : Bool :=
  globMatch t.raw.data name.data

/-- Modelled from the spec: the method `String` of a pattern, its original text. -/
def Pattern.str (t : Pattern) : String := t.raw

/-- Modelled from the spec: the severity of a constraint. The spec names `Warn` and
`Error`; `other` stands for any further value the Go type can hold, which the code
treats like `Error` (it only ever tests `level == Warn`). -/
inductive errorLevel where
  | Warn
  | Error
  | other (code : Nat)
  deriving DecidableEq, Repr

/-- Modelled from the spec: the kind of a canonical constraint. The spec names `Allow`
and `Forbid`; `other` stands for any further value, carrying the text that the `%s`
verb prints for it, which is all the code uses of such a value. -/
inductive constraintKind where
  | Allow
  | Forbid
  | other (rendered : String)
  deriving DecidableEq, Repr

/-- Modelled from the spec: the canonical constraint consumed by the checker. The checker
reads the fields `kind`, `depPatterns` and `onBreak`; `subjectPatterns` is read by
`GetApplicableConstraints`. -/
structure CanonicalConstraint where
  kind : constraintKind
  subjectPatterns : List Pattern
  depPatterns : List Pattern
  onBreak : errorLevel
  deriving DecidableEq, Repr

/-- Modelled from the spec: a loaded policy, the components in declared order, each with
its include-patterns, and the ordered canonical constraints. -/
structure Policy where
  components : List (String × List Pattern)
  canonicalConstraints : List CanonicalConstraint
  deriving Repr

/-- Modelled from the spec: the query `GetApplicableConstraints` of the policy, the
constraints one of whose subject patterns matches the package, in declared order. -/
def Policy.GetApplicableConstraints (p : Policy) (pkg : String) : List CanonicalConstraint :=
  p.canonicalConstraints.filter (fun c => c.subjectPatterns.any (fun t => t.matches pkg))

/-- Modelled from the spec: the query `ComponentsForPackage` of the policy, the names of
the components one of whose include-patterns matches the package, in declared order,
together with the flag telling whether there is any. -/
def Policy.ComponentsForPackage (p : Policy) (pkg : String) : List String × Bool :=
  let result := (p.components.filter (fun c => c.2.any (fun t => t.matches pkg))).map Prod.fst
  (result, !result.isEmpty)

/-- A node of the resolved dependency tree (`depth.Pkg`): its name, the flag `Internal`
that marks a package of the standard library, and its direct dependencies. -/
inductive Pkg where
  | mk (Name : String) (Internal : Bool) (Deps : List Pkg)

/-- The field `Name` of a node. -/
def Pkg.Name : Pkg → String
  | .mk n _ _ => n

/-- The field `Internal` of a node. -/
def Pkg.Internal : Pkg → Bool
  | .mk _ i _ => i

/-- The field `Deps` of a node. -/
def Pkg.Deps : Pkg → List Pkg
  | .mk _ _ ds => ds

/-- The result of checking one package (`CheckResult`). -/
structure CheckResult where
  Warns : List GoError
  Errs : List GoError
  deriving DecidableEq, Repr

/-- An observable effect: a call on the logger with the text it prints, or a send on the
result channel. -/
inductive Event where
  | Debugf (text : String)
  | Infof (text : String)
  | Warningf (text : String)
  | Errorf (text : String)
  | send (r : CheckResult)
  deriving DecidableEq, Repr

/-- True on the sends on the result channel. -/
def Event.isSend : Event → Bool
  | .send _ => true
  | _ => false

/-- True on the calls of `Warningf`. -/
def Event.isWarning : Event → Bool
  | .Warningf _ => true
  | _ => false

/-- True on the calls of `Errorf`. -/
def Event.isError : Event → Bool
  | .Errorf _ => true
  | _ => false

/-- The results sent on the channel, in order. -/
def sent : List Event → List CheckResult
  | [] => []
  | .send r :: es => r :: sent es
  | _ :: es => sent es

/-- The checker (`Checker`): the policy it is bound to (the logger is the event list). -/
structure Checker where
  policy : Policy

/-- The constructor `NewChecker`; it never fails. -/
def NewChecker (p : Policy) : Except GoError Checker := .ok { policy := p }

/-- The state of a constraint loop: the events performed so far and the two buckets. -/
structure Acc where
  trace : List Event
  warns : List GoError
  errs : List GoError
  deriving DecidableEq, Repr

/-! ## The checker (`internal/policy/checker.go`) -/

/-- The helper `buildCheckResult`. -/
def buildCheckResult (warns errs : List GoError) : CheckResult :=
  { Warns := warns, Errs := errs }

/-- The method `appendByLevel`: the new error goes to `w` when the level is `Warn`, to
`e` otherwise. -/
def appendByLevel (w e : List GoError) (level : errorLevel) (msg : String) :
    List GoError × List GoError :=
  let newErr : GoError := msg
  if level = errorLevel.Warn then (w ++ [newErr], e) else (w, e ++ [newErr])

/-- The message of a violated constraint, `fmt.Sprintf("%s depends on %s", pkg, d.Name)`. -/
def dependsOnMsg (pkg dName : String) : String :=
  pkg ++ " depends on " ++ dName

/-- The inner loop of `checkAllowConstraint`: `ok` starts false and is set at the first
matching pattern, where the loop breaks; every pattern tried is logged first. -/
def allowInner (dName : String) : List Pattern → Bool × List Event
  | [] => (false, [])
  | t :: ts =>
    let ev := Event.Debugf ("allow: " ++ dName ++ " matches " ++ t.str ++ " ?")
    if t.matches dName then (true, [ev])
    else ((allowInner dName ts).1, ev :: (allowInner dName ts).2)

/-- The loop of `checkAllowConstraint` over the dependencies. -/
def allowLoop (constraint : CanonicalConstraint) (pkg : String) : List Pkg → Acc → Acc
  | [], st => st
  | d :: ds, st =>
    if d.Internal then allowLoop constraint pkg ds st
    else
      let r := allowInner d.Name constraint.depPatterns
      if !r.1 then
        let we := appendByLevel st.warns st.errs constraint.onBreak (dependsOnMsg pkg d.Name)
        allowLoop constraint pkg ds ⟨st.trace ++ r.2, we.1, we.2⟩
      else allowLoop constraint pkg ds ⟨st.trace ++ r.2, st.warns, st.errs⟩

/-- The method `checkAllowConstraint`: both buckets start empty. -/
def checkAllowConstraint (constraint : CanonicalConstraint) (pkg : String)
    (pkgDeps : List Pkg) : Acc :=
  allowLoop constraint pkg pkgDeps ⟨[], [], []⟩

/-- The inner loop of `checkForbidConstraint`: `ok` starts true and is cleared at the
first matching pattern, where the loop breaks; every pattern tried is logged first. -/
def forbidInner (dName : String) : List Pattern → Bool × List Event
  | [] => (true, [])
  | t :: ts =>
    let ev := Event.Debugf ("forbid: " ++ dName ++ " matches " ++ t.str ++ " ?")
    if t.matches dName then (false, [ev])
    else ((forbidInner dName ts).1, ev :: (forbidInner dName ts).2)

/-- The loop of `checkForbidConstraint` over the dependencies. -/
def forbidLoop (constraint : CanonicalConstraint) (pkg : String) : List Pkg → Acc → Acc
  | [], st => st
  | d :: ds, st =>
    if d.Internal then forbidLoop constraint pkg ds st
    else
      let r := forbidInner d.Name constraint.depPatterns
      if !r.1 then
        let we := appendByLevel st.warns st.errs constraint.onBreak (dependsOnMsg pkg d.Name)
        forbidLoop constraint pkg ds ⟨st.trace ++ r.2, we.1, we.2⟩
      else forbidLoop constraint pkg ds ⟨st.trace ++ r.2, st.warns, st.errs⟩

/-- The method `checkForbidConstraint`: both buckets start empty. -/
def checkForbidConstraint (constraint : CanonicalConstraint) (pkg : String)
    (pkgDeps : List Pkg) : Acc :=
  forbidLoop constraint pkg pkgDeps ⟨[], [], []⟩

/-- The message of the default branch of the switch on the kind. -/
def unknownKindMsg (rendered : String) : String :=
  "unable to check constraints of kind `" ++ rendered ++ "`"

/-- The loop of `CheckPkg` over the applicable constraints, dispatching on the kind. -/
def constraintsLoop (pkg : String) (pkgDeps : List Pkg) : List CanonicalConstraint → Acc → Acc
  | [], st => st
  | constr :: rest, st =>
    match constr.kind with
    | .Allow =>
      let r := checkAllowConstraint constr pkg pkgDeps
      constraintsLoop pkg pkgDeps rest ⟨st.trace ++ r.trace, st.warns ++ r.warns, st.errs ++ r.errs⟩
    | .Forbid =>
      let r := checkForbidConstraint constr pkg pkgDeps
      constraintsLoop pkg pkgDeps rest ⟨st.trace ++ r.trace, st.warns ++ r.warns, st.errs ++ r.errs⟩
    | .other rendered =>
      constraintsLoop pkg pkgDeps rest ⟨st.trace, st.warns, st.errs ++ [unknownKindMsg rendered]⟩

/-- The method `CheckPkg`, as the list of the effects it performs: the debug line, then
either the warning and an empty result (no applicable constraint), or a result with the
resolver error, or the result of the constraint loop. -/
def CheckPkg (c : Checker) (resolve : String → Except GoError Pkg) (pkg : String) :
    List Event :=
  let errs : List GoError := []
  let warns : List GoError := []
  let applicableConstraints := c.policy.GetApplicableConstraints pkg
  let dbg := Event.Debugf ("Checking (" ++ toString applicableConstraints.length ++
    " constraints) package " ++ pkg)
  if applicableConstraints.length = 0 then
    [dbg, Event.Warningf (pkg ++ " does not have constraints."),
      Event.send (buildCheckResult warns errs)]
  else
    match resolve pkg with
    | .error err =>
      [dbg, Event.send (buildCheckResult warns
        (errs ++ ["unable to get dependencies of " ++ pkg ++ ": " ++ err]))]
    | .ok root =>
      let st := constraintsLoop pkg root.Deps applicableConstraints ⟨[dbg], warns, errs⟩
      st.trace ++ [Event.send (buildCheckResult st.warns st.errs)]

/-! ## The enforce command (`cmd/enforce.go`) -/

/-- The receiving loop of `check`: `n` receives on the channel, each logging the warnings
and the errors of the result (the logger is given the message as its format) and adding
the number of errors to `errCount`. `cnt` is the Go `int` counter; it is a natural number
here, the number of errors alive in one run being far below the 63-bit range. A receive on
a channel that delivers nothing more blocks for ever: `none`. -/
def recvLoop : Nat → List CheckResult → List Event × Nat → Option (List Event × Nat)
  | 0, _, st => some st
  | _ + 1, [], _ => none
  | n + 1, result :: rest, st =>
    recvLoop n rest
      (st.1 ++ result.Warns.map Event.Warningf ++ result.Errs.map Event.Errorf,
        st.2 + result.Errs.length)

/-- The function `check`. The goroutines `go checker.CheckPkg(pkg, out)` run concurrently;
`arrival` is the sequence of results the channel delivers, in the order of arrival. The
value is the events of the coordinator and the returned error (`none` for `nil`); the
outer `none` stands for a run that never returns. -/
def check (p : Policy) (pkgs : List String) (arrival : List CheckResult) :
    Option (List Event × Option GoError) :=
  match NewChecker p with
  | .error _ => none
  | .ok _ =>
    let pkgCount := pkgs.length
    match recvLoop pkgCount arrival ([Event.Infof "Checking..."], 0) with
    | none => none
    | some st =>
      let errCount := st.2
      if errCount > 0 then
        some (st.1 ++ [Event.Infof "Check done"],
          some ("found " ++ toString errCount ++ " error(s)"))
      else some (st.1 ++ [Event.Infof "Check done"], none)

/-- The results the goroutines started by `check` send: `arrival` is a possible order of
arrival when it is a permutation of the results sent by `CheckPkg` on the packages. -/
def IsArrival (c : Checker) (resolve : String → Except GoError Pkg) (pkgs : List String)
    (arrival : List CheckResult) : Prop :=
  arrival.Perm (pkgs.flatMap (fun pkg => sent (CheckPkg c resolve pkg)))

/-- The total number of errors of a list of results. -/
def totalErrs (rs : List CheckResult) : Nat :=
  (rs.map (fun r => r.Errs.length)).sum

/-! ## The graph command (`cmd/depGraph.go`) -/

/-- The double quote character. -/
def dq : Char := Char.ofNat 34

/-- The key of an edge, `fmt.Sprintf` of the format that quotes both labels around an
arrow. -/
def edgeKey (from_ to_ : String) : String :=
  "\"" ++ from_ ++ "\" -> \"" ++ to_ ++ "\""

/-- The function `mustSkip`. -/
def mustSkip (from_ to_ : String) (toSkip : String → Bool) : Bool :=
  from_ == to_ || toSkip from_ || toSkip to_

/-- The function `getNodeLabel`: `UNDEFINED` when the policy reports no component, the
first component otherwise; `none` stands for the panic of an index out of range. -/
def getNodeLabel (p : Pkg) (policy : Policy) : Option String :=
  match policy.ComponentsForPackage p.Name with
  | (comps, ok) => if !ok then some "UNDEFINED" else comps[0]?

mutual
/-- The function `writeDepsGraphRec`. The set of edges (the keys of a Go map) is a list
to which a key is added only when it is absent; `toSkip` is the map of skipped labels,
false on a missing key. The walk stops at a skipped label, and goes into a dependency
only after adding the edge that leads to it. -/
def writeDepsGraphRec (policy : Policy) (toSkip : String → Bool) :
    Pkg → List String → Option (List String)
  | .mk n i ds, edges =>
    match getNodeLabel (.mk n i ds) policy with
    | none => none
    | some from_ =>
      if toSkip from_ then some edges
      else writeDepsLoop policy toSkip from_ ds edges
/-- The loop of `writeDepsGraphRec` over the direct dependencies of a node labelled
`from_`. -/
def writeDepsLoop (policy : Policy) (toSkip : String → Bool) (from_ : String) :
    List Pkg → List String → Option (List String)
  | [], edges => some edges
  | d :: ds, edges =>
    match getNodeLabel d policy with
    | none => none
    | some to_ =>
      if mustSkip from_ to_ toSkip then writeDepsLoop policy toSkip from_ ds edges
      else
        match writeDepsGraphRec policy toSkip d (edges.insert (edgeKey from_ to_)) with
        | none => none
        | some edges1 => writeDepsLoop policy toSkip from_ ds edges1
end

/-- The loop of the graph command over the selected packages: a package whose
dependencies cannot be resolved is skipped with a warning, the others are walked, all
into the same set of edges. -/
def collectEdges (resolvePkgDeps : String → Except GoError Pkg) (policy : Policy)
    (toSkip : String → Bool) : List String → List String → Option (List String)
  | [], edges => some edges
  | pkg :: pkgs, edges =>
    match resolvePkgDeps pkg with
    | .error _ => collectEdges resolvePkgDeps policy toSkip pkgs edges
    | .ok depsRoot =>
      match writeDepsGraphRec policy toSkip depsRoot edges with
      | none => none
      | some edges1 => collectEdges resolvePkgDeps policy toSkip pkgs edges1

/-! ## Scenarios of the specification -/

/-- The pattern with the given text. -/
def pat (s : String) : Pattern := { raw := s }

/-- Scenario S1: scope `web`, forbid `db`, severity error. -/
def s1Constraint : CanonicalConstraint :=
  { kind := .Forbid, subjectPatterns := [pat "acme/web/*"], depPatterns := [pat "acme/db/*"],
    onBreak := .Error }

/-- Scenario S2: scope `core`, allow `acme/core/*` and `acme/util/*`, severity warn. -/
def s2Constraint : CanonicalConstraint :=
  { kind := .Allow, subjectPatterns := [pat "acme/core/*"],
    depPatterns := [pat "acme/core/*", pat "acme/util/*"], onBreak := .Warn }

/-- The policy of scenarios S1, S3 and S4. -/
def s1Policy : Policy :=
  { components := [("web", [pat "acme/web/*"]), ("db", [pat "acme/db/*"])],
    canonicalConstraints := [s1Constraint] }

/-- The checker bound to the policy of scenario S1. -/
def s1Checker : Checker := { policy := s1Policy }

/-- Scenario S5: the components `A`, `B`, `C`. -/
def s5Policy : Policy :=
  { components := [("A", [pat "acme/a/*"]), ("B", [pat "acme/b/*"]), ("C", [pat "acme/c/*"])],
    canonicalConstraints := [] }

/-- Scenario S5: the tree `a → b → c`, `a → c`. -/
def s5Tree : Pkg :=
  .mk "acme/a/x" false [.mk "acme/b/x" false [.mk "acme/c/x" false []], .mk "acme/c/x" false []]

/-! ## Vocabulary of the statements -/

/-- A dependency breaks a forbid constraint: it is not of the standard library and some
pattern of the constraint matches its name. -/
def forbidViolates (c : CanonicalConstraint) (d : Pkg) : Bool :=
  !d.Internal && c.depPatterns.any (fun t => t.matches d.Name)

/-- A dependency breaks an allow constraint: it is not of the standard library and no
pattern of the constraint matches its name. -/
def allowViolates (c : CanonicalConstraint) (d : Pkg) : Bool :=
  !d.Internal && !c.depPatterns.any (fun t => t.matches d.Name)

/-- One message per dependency selected by `viol`, in the order of the list. -/
def diags (viol : Pkg → Bool) (pkg : String) (deps : List Pkg) : List GoError :=
  (deps.filter viol).map (fun d => dependsOnMsg pkg d.Name)

/-- The warnings one applicable constraint contributes to the result of `CheckPkg`. -/
def constraintWarns (pkg : String) (deps : List Pkg) (c : CanonicalConstraint) : List GoError :=
  match c.kind with
  | .Allow => (checkAllowConstraint c pkg deps).warns
  | .Forbid => (checkForbidConstraint c pkg deps).warns
  | .other _ => []

/-- The errors one applicable constraint contributes to the result of `CheckPkg`. -/
def constraintErrs (pkg : String) (deps : List Pkg) (c : CanonicalConstraint) : List GoError :=
  match c.kind with
  | .Allow => (checkAllowConstraint c pkg deps).errs
  | .Forbid => (checkForbidConstraint c pkg deps).errs
  | .other rendered => [unknownKindMsg rendered]

/-- The dependencies that are not flagged stdlib, in order. -/
def dropStdlib (deps : List Pkg) : List Pkg :=
  deps.filter (fun d => !d.Internal)

/-- A diagnostic refers to a dependency of the list that is not flagged stdlib. -/
def RefersToDep (pkg : String) (deps : List Pkg) (m : GoError) : Prop :=
  ∃ d ∈ deps, d.Internal = false ∧ m = pkg ++ " depends on " ++ d.Name

/-- The debug line `CheckPkg` starts with. -/
def checkingLine (c : Checker) (pkg : String) : Event :=
  Event.Debugf ("Checking (" ++ toString (c.policy.GetApplicableConstraints pkg).length ++
    " constraints) package " ++ pkg)

/-- The result of `CheckPkg` on each of its three paths. -/
def checkPkgResult (c : Checker) (resolve : String → Except GoError Pkg) (pkg : String) :
    CheckResult :=
  if (c.policy.GetApplicableConstraints pkg).length = 0 then { Warns := [], Errs := [] }
  else
    match resolve pkg with
    | .error err =>
      { Warns := [], Errs := ["unable to get dependencies of " ++ pkg ++ ": " ++ err] }
    | .ok root =>
      { Warns := (c.policy.GetApplicableConstraints pkg).flatMap (constraintWarns pkg root.Deps),
        Errs := (c.policy.GetApplicableConstraints pkg).flatMap (constraintErrs pkg root.Deps) }

/-- A dependency name breaks a constraint: no pattern matches it under an allow
constraint, some pattern matches it under a forbid constraint. -/
def violatedBy (c : CanonicalConstraint) (n : String) : Bool :=
  match c.kind with
  | .Allow => !c.depPatterns.any (fun t => t.matches n)
  | .Forbid => c.depPatterns.any (fun t => t.matches n)
  | .other _ => false

/-- The number of entries of the dependency list that are not flagged stdlib and bear the
name `n` (one, when the resolver lists a package once). -/
def occurrences (deps : List Pkg) (n : String) : Nat :=
  deps.countP (fun d => !d.Internal && d.Name == n)

/-- The error `check` returns for a total of `k` errors: none for zero, `found k error(s)`
otherwise. -/
def foundErrors (k : Nat) : Option GoError :=
  if k = 0 then none else some ("found " ++ toString k ++ " error(s)")

/-- Two constraints of severity error that both forbid `acme/db/pg` to `acme/web/http`. -/
def overlapChecker : Checker :=
  { policy := { components := [],
                canonicalConstraints :=
                  [s1Constraint,
                   { kind := .Forbid, subjectPatterns := [pat "acme/*"],
                     depPatterns := [pat "*/pg"], onBreak := .Error }] } }

/-- The text holds no double quote. -/
def quoteFree (s : String) : Bool :=
  !s.data.contains dq

/-- The set of edges holds no self-loop and no edge with an end in the skip-set: no key
in it is the key of an edge from a label to itself, or of an edge one of whose labels is
skipped. -/
def EdgesClean (toSkip : String → Bool) (edges : List String) : Prop :=
  ∀ s ∈ edges, ∀ x y : String, s = edgeKey x y → x ≠ y ∧ toSkip x = false ∧ toSkip y = false

/-- A policy with a component whose name holds double quotes. -/
def quotedPolicy : Policy :=
  { components := [("a", [pat "p/a"]), ("a\" -> \"a\" -> \"a", [pat "p/b"])],
    canonicalConstraints := [] }

/-- The tree `p/a → p/b`. -/
def quotedTree : Pkg :=
  .mk "p/a" false [.mk "p/b" false []]

/-- The name and the stdlib flag of each entry of a dependency list, all that is left of
the list when the deeper levels of the tree are forgotten. -/
def directView (deps : List Pkg) : List (String × Bool) :=
  deps.map (fun d => (d.Name, d.Internal))

/-- A root with the direct dependencies of scenario S3 and a deeper level under one of
them. -/
def deepRoot : Pkg :=
  .mk "acme/web/http" false
    [.mk "fmt" true [.mk "os" true []], .mk "acme/db/pg" false [.mk "acme/db/driver" false []]]

/-- The root with the same direct dependencies and nothing under them. -/
def flatRoot : Pkg :=
  .mk "acme/web/http" false [.mk "fmt" true [], .mk "acme/db/pg" false []]

/-- The loop of `writeDepsGraphRec` at a node labelled `from_` goes past the dependency
`d`: its label makes `mustSkip` true, so neither the edge is added nor `d` walked. -/
def passedOver (policy : Policy) (toSkip : String → Bool) (from_ : String) (d : Pkg) : Bool :=
  match getNodeLabel d policy with
  | some to_ => mustSkip from_ to_ toSkip
  | none => false

/-- A chain inside one component that leaves it at the second step:
`acme/a/x → acme/a/y → acme/b/z`. -/
def sameComponentTree : Pkg :=
  .mk "acme/a/x" false [.mk "acme/a/y" false [.mk "acme/b/z" false []]]

/-- Scenario S6: `acme/a/x → ext/z → acme/c/x`, where `ext/z` is in no component. -/
def s6Tree : Pkg :=
  .mk "acme/a/x" false [.mk "ext/z" false [.mk "acme/c/x" false []]]

/-- A checker whose only constraint, on the packages `acme/*`, is of a kind that prints as
`weird`. -/
def weirdChecker : Checker :=
  { policy := { components := [],
                canonicalConstraints :=
                  [{ kind := .other "weird", subjectPatterns := [pat "acme/*"],
                     depPatterns := [pat "*"], onBreak := .Warn }] } }

/-- The apostrophe, as a text. -/
def apostrophe : String := String.singleton (Char.ofNat 39)

/-! ## Package listing (`cmd/enforce.go`) -/

/-- The line feed character. -/
def lf : Char := Char.ofNat 10

/-- The library function `strings.Split` with the separator line feed, on characters: the
pieces between the separators, one more than there are separators. -/
def splitLines : List Char → List (List Char)
  | [] => [[]]
  | c :: cs =>
    if c = lf then [] :: splitLines cs
    else
      match splitLines cs with
      | [] => [[c]]
      | h :: t => (c :: h) :: t

/-- The call `strings.Split(s, "\n")`. -/
def stringsSplit (s : String) : List String :=
  (splitLines s.data).map String.mk

/-- What running the listing command gives: whether `Run` returned an error, and the
captured standard output and standard error. -/
structure CmdOutcome where
  failed : Bool
  stdout : String
  stderr : String
  deriving DecidableEq, Repr

/-- The function `retrievePackages`; `run` stands for running `go list` on the selector.
The value is the returned slice and error (`none` for `nil`); the outer `none` stands for
the panic of the slice expression `r[:len(r)-1]` on an empty `r`. -/
def retrievePackages (run : String → CmdOutcome) (pkgSelector : String) :
    Option (List String × Option GoError) :=
  let r : List String := []
  let o := run pkgSelector
  if o.failed then some (r, some o.stderr)
  else
    let r := stringsSplit o.stdout
    if 1 ≤ r.length then some (r.take (r.length - 1), none) else none

/-- The standard output of a successful listing of the given packages: one name per line,
each line ended by a line feed. -/
def listingText (names : List String) : String :=
  names.foldr (fun n acc => n ++ String.singleton lf ++ acc) ""

/-! ## The logger (`cmd/dfence.go`) -/

/-- The colours the logger uses. -/
inductive Color where
  | FgCyan
  | FgGreen
  | FgHiYellow
  | FgHiRed
  | BgRed
  deriving DecidableEq, Repr

/-- A logging function: `none` is the function `nop` that does nothing, `some (p, c)` the
function that prints in colour `c` the message after the text `p`. -/
abbrev LoggerFunc := Option (String × Color)

/-- The function `buildLoggerFunc`. -/
def buildLoggerFunc (pfx : String) (c : Color) : LoggerFunc := some (pfx, c)

/-- The five functions handed to `infra.NewLogger`. -/
structure Logger where
  debug : LoggerFunc
  info : LoggerFunc
  warn : LoggerFunc
  err : LoggerFunc
  fatal : LoggerFunc
  deriving DecidableEq, Repr

/-- The case of the switch of `buildlogger` at which the level enters: `none` for the case
`"none"`, whose body is empty and does not fall through, and the index of the case for
`"debug"` (0), `"info"` (1), `"warn"` (2) and `default` (3). -/
def switchEntry (level : String) : Option Nat :=
  if level = "none" then none
  else if level = "debug" then some 0
  else if level = "info" then some 1
  else if level = "warn" then some 2
  else some 3

/-- The body of case `body` is run: the switch was entered at that case or at an earlier
one, every case from `"debug"` on falling through to the next. -/
def bodyRuns (entry : Option Nat) (body : Nat) : Bool :=
  match entry with
  | none => false
  | some k => decide (k ≤ body)

/-- The function `buildlogger`. -/
def buildlogger (level : String) : Logger :=
  let nop : LoggerFunc := none
  let entry := switchEntry level
  let debug := if bodyRuns entry 0 then buildLoggerFunc "[DEBUG] " Color.FgCyan else nop
  let info := if bodyRuns entry 1 then buildLoggerFunc "" Color.FgGreen else nop
  let warn := if bodyRuns entry 2 then buildLoggerFunc "" Color.FgHiYellow else nop
  let err := if bodyRuns entry 3 then buildLoggerFunc "" Color.FgHiRed else nop
  let fatal := buildLoggerFunc "" Color.BgRed
  { debug := debug, info := info, warn := warn, err := err, fatal := fatal }

/-- A checker with a constraint of unknown kind between two copies of the constraint of
scenario S1. -/
def betweenChecker : Checker :=
  { policy := { components := [],
                canonicalConstraints :=
                  [s1Constraint, { s1Constraint with kind := constraintKind.other "weird" },
                    s1Constraint] } }

/-! ## Lemmas on the constraint loops -/

theorem allowInner_fst (n : String) (ps : List Pattern) :
    (allowInner n ps).1 = ps.any (fun t => t.matches n) := by
  induction ps with
  | nil => rfl
  | cons t ts ih =>
    by_cases h : t.matches n = true
    · simp [allowInner, h]
    · simp [allowInner, h, ih]

theorem forbidInner_fst (n : String) (ps : List Pattern) :
    (forbidInner n ps).1 = !ps.any (fun t => t.matches n) := by
  induction ps with
  | nil => rfl
  | cons t ts ih =>
    by_cases h : t.matches n = true
    · simp [forbidInner, h]
    · simp [forbidInner, h, ih]

theorem diags_cons_true (viol : Pkg → Bool) (pkg : String) (d : Pkg) (ds : List Pkg)
    (h : viol d = true) :
    diags viol pkg (d :: ds) = dependsOnMsg pkg d.Name :: diags viol pkg ds := by
  simp [diags, h]

theorem diags_cons_false (viol : Pkg → Bool) (pkg : String) (d : Pkg) (ds : List Pkg)
    (h : viol d = false) :
    diags viol pkg (d :: ds) = diags viol pkg ds := by
  simp [diags, h]

/-- The buckets after the forbid loop: the violations are appended to the bucket chosen by
the severity, the other bucket is unchanged. -/
theorem forbidLoop_buckets (c : CanonicalConstraint) (pkg : String) :
    ∀ (ds : List Pkg) (st : Acc),
      (forbidLoop c pkg ds st).warns =
          st.warns ++ (if c.onBreak = errorLevel.Warn then diags (forbidViolates c) pkg ds else []) ∧
      (forbidLoop c pkg ds st).errs =
          st.errs ++ (if c.onBreak = errorLevel.Warn then [] else diags (forbidViolates c) pkg ds) := by
  intro ds
  induction ds with
  | nil => intro st; simp [forbidLoop, diags]
  | cons d ds ih =>
    intro st
    by_cases hi : d.Internal = true
    · have hv : forbidViolates c d = false := by simp [forbidViolates, hi]
      simp only [forbidLoop, hi, if_true, diags_cons_false _ _ _ _ hv]
      exact ih st
    · have hi' : d.Internal = false := by simpa using hi
      by_cases hm : c.depPatterns.any (fun t => t.matches d.Name) = true
      · have hv : forbidViolates c d = true := by simp only [forbidViolates, hi', hm]; rfl
        have hok : (forbidInner d.Name c.depPatterns).1 = false := by
          rw [forbidInner_fst, hm]; rfl
        simp only [forbidLoop, hi', hok, diags_cons_true _ _ _ _ hv]
        by_cases hw : c.onBreak = errorLevel.Warn
        · simp [appendByLevel, hw, ih]
        · simp [appendByLevel, hw, ih]
      · have hm' : c.depPatterns.any (fun t => t.matches d.Name) = false := by simpa using hm
        have hv : forbidViolates c d = false := by simp only [forbidViolates, hi', hm']; rfl
        have hok : (forbidInner d.Name c.depPatterns).1 = true := by
          rw [forbidInner_fst, hm']; rfl
        simp only [forbidLoop, hi', hok, diags_cons_false _ _ _ _ hv]
        simp [ih]

/-- The buckets after the allow loop. -/
theorem allowLoop_buckets (c : CanonicalConstraint) (pkg : String) :
    ∀ (ds : List Pkg) (st : Acc),
      (allowLoop c pkg ds st).warns =
          st.warns ++ (if c.onBreak = errorLevel.Warn then diags (allowViolates c) pkg ds else []) ∧
      (allowLoop c pkg ds st).errs =
          st.errs ++ (if c.onBreak = errorLevel.Warn then [] else diags (allowViolates c) pkg ds) := by
  intro ds
  induction ds with
  | nil => intro st; simp [allowLoop, diags]
  | cons d ds ih =>
    intro st
    by_cases hi : d.Internal = true
    · have hv : allowViolates c d = false := by simp [allowViolates, hi]
      simp only [allowLoop, hi, if_true, diags_cons_false _ _ _ _ hv]
      exact ih st
    · have hi' : d.Internal = false := by simpa using hi
      by_cases hm : c.depPatterns.any (fun t => t.matches d.Name) = true
      · have hv : allowViolates c d = false := by simp only [allowViolates, hi', hm]; rfl
        have hok : (allowInner d.Name c.depPatterns).1 = true := by
          rw [allowInner_fst, hm]
        simp only [allowLoop, hi', hok, diags_cons_false _ _ _ _ hv]
        simp [ih]
      · have hm' : c.depPatterns.any (fun t => t.matches d.Name) = false := by simpa using hm
        have hv : allowViolates c d = true := by simp only [allowViolates, hi', hm']; rfl
        have hok : (allowInner d.Name c.depPatterns).1 = false := by
          rw [allowInner_fst, hm']
        simp only [allowLoop, hi', hok, diags_cons_true _ _ _ _ hv]
        by_cases hw : c.onBreak = errorLevel.Warn
        · simp [appendByLevel, hw, ih]
        · simp [appendByLevel, hw, ih]

theorem checkForbidConstraint_warns (c : CanonicalConstraint) (pkg : String) (deps : List Pkg) :
    (checkForbidConstraint c pkg deps).warns =
      if c.onBreak = errorLevel.Warn then diags (forbidViolates c) pkg deps else [] := by
  simpa [checkForbidConstraint] using (forbidLoop_buckets c pkg deps ⟨[], [], []⟩).1

theorem checkForbidConstraint_errs (c : CanonicalConstraint) (pkg : String) (deps : List Pkg) :
    (checkForbidConstraint c pkg deps).errs =
      if c.onBreak = errorLevel.Warn then [] else diags (forbidViolates c) pkg deps := by
  simpa [checkForbidConstraint] using (forbidLoop_buckets c pkg deps ⟨[], [], []⟩).2

theorem checkAllowConstraint_warns (c : CanonicalConstraint) (pkg : String) (deps : List Pkg) :
    (checkAllowConstraint c pkg deps).warns =
      if c.onBreak = errorLevel.Warn then diags (allowViolates c) pkg deps else [] := by
  simpa [checkAllowConstraint] using (allowLoop_buckets c pkg deps ⟨[], [], []⟩).1

theorem checkAllowConstraint_errs (c : CanonicalConstraint) (pkg : String) (deps : List Pkg) :
    (checkAllowConstraint c pkg deps).errs =
      if c.onBreak = errorLevel.Warn then [] else diags (allowViolates c) pkg deps := by
  simpa [checkAllowConstraint] using (allowLoop_buckets c pkg deps ⟨[], [], []⟩).2

theorem mem_diags (viol : Pkg → Bool) (pkg : String) (deps : List Pkg) (m : GoError) :
    m ∈ diags viol pkg deps ↔ ∃ d ∈ deps, viol d = true ∧ m = dependsOnMsg pkg d.Name := by
  simp only [diags, List.mem_map, List.mem_filter]
  constructor
  · rintro ⟨d, ⟨hd, hv⟩, rfl⟩; exact ⟨d, hd, hv, rfl⟩
  · rintro ⟨d, hd, hv, rfl⟩; exact ⟨d, ⟨hd, hv⟩, rfl⟩

theorem length_diags (viol : Pkg → Bool) (pkg : String) (deps : List Pkg) :
    (diags viol pkg deps).length = deps.countP viol := by
  simp [diags, List.countP_eq_length_filter]

/-! ## Lemmas on `CheckPkg` -/

theorem sent_append (xs ys : List Event) : sent (xs ++ ys) = sent xs ++ sent ys := by
  induction xs with
  | nil => rfl
  | cons x xs ih => cases x <;> simp [sent, ih]

theorem sent_allowInner (n : String) (ps : List Pattern) : sent (allowInner n ps).2 = [] := by
  induction ps with
  | nil => rfl
  | cons t ts ih =>
    by_cases h : t.matches n = true
    · simp [allowInner, h, sent]
    · simp [allowInner, h, sent, ih]

theorem sent_forbidInner (n : String) (ps : List Pattern) : sent (forbidInner n ps).2 = [] := by
  induction ps with
  | nil => rfl
  | cons t ts ih =>
    by_cases h : t.matches n = true
    · simp [forbidInner, h, sent]
    · simp [forbidInner, h, sent, ih]

theorem sent_allowLoop (c : CanonicalConstraint) (pkg : String) :
    ∀ (ds : List Pkg) (st : Acc), sent (allowLoop c pkg ds st).trace = sent st.trace := by
  intro ds
  induction ds with
  | nil => intro st; rfl
  | cons d ds ih =>
    intro st
    by_cases hi : d.Internal = true
    · simp only [allowLoop, hi, if_true]; exact ih st
    · have hi' : d.Internal = false := by simpa using hi
      simp only [allowLoop, hi', Bool.false_eq_true, if_false]
      by_cases hr : (allowInner d.Name c.depPatterns).1 = true
      · simp [hr, ih, sent_append, sent_allowInner]
      · simp [hr, ih, sent_append, sent_allowInner]

theorem sent_forbidLoop (c : CanonicalConstraint) (pkg : String) :
    ∀ (ds : List Pkg) (st : Acc), sent (forbidLoop c pkg ds st).trace = sent st.trace := by
  intro ds
  induction ds with
  | nil => intro st; rfl
  | cons d ds ih =>
    intro st
    by_cases hi : d.Internal = true
    · simp only [forbidLoop, hi, if_true]; exact ih st
    · have hi' : d.Internal = false := by simpa using hi
      simp only [forbidLoop, hi', Bool.false_eq_true, if_false]
      by_cases hr : (forbidInner d.Name c.depPatterns).1 = true
      · simp [hr, ih, sent_append, sent_forbidInner]
      · simp [hr, ih, sent_append, sent_forbidInner]

/-- The state after the loop over the constraints: each constraint appends its warnings
and its errors, and nothing is sent. -/
theorem constraintsLoop_buckets (pkg : String) (deps : List Pkg) :
    ∀ (cs : List CanonicalConstraint) (st : Acc),
      (constraintsLoop pkg deps cs st).warns = st.warns ++ cs.flatMap (constraintWarns pkg deps) ∧
      (constraintsLoop pkg deps cs st).errs = st.errs ++ cs.flatMap (constraintErrs pkg deps) ∧
      sent (constraintsLoop pkg deps cs st).trace = sent st.trace := by
  intro cs
  induction cs with
  | nil => intro st; simp [constraintsLoop]
  | cons c cs ih =>
    intro st
    cases hk : c.kind with
    | Allow =>
      simp only [constraintsLoop, hk, ih, List.flatMap_cons, constraintWarns, constraintErrs,
        List.append_assoc, sent_append, true_and]
      simp [checkAllowConstraint, sent_allowLoop, sent]
    | Forbid =>
      simp only [constraintsLoop, hk, ih, List.flatMap_cons, constraintWarns, constraintErrs,
        List.append_assoc, sent_append, true_and]
      simp [checkForbidConstraint, sent_forbidLoop, sent]
    | other k =>
      simp only [constraintsLoop, hk, ih, List.flatMap_cons, constraintWarns, constraintErrs,
        List.append_assoc, List.nil_append, and_self]

theorem sent_CheckPkg (c : Checker) (resolve : String → Except GoError Pkg) (pkg : String) :
    sent (CheckPkg c resolve pkg) = [checkPkgResult c resolve pkg] := by
  unfold CheckPkg checkPkgResult
  by_cases h0 : (c.policy.GetApplicableConstraints pkg).length = 0
  · simp [h0, sent, buildCheckResult]
  · simp only [h0, if_false]
    cases hr : resolve pkg with
    | error e => simp [sent, buildCheckResult]
    | ok root =>
      have h := constraintsLoop_buckets pkg root.Deps (c.policy.GetApplicableConstraints pkg)
        ⟨[checkingLine c pkg], [], []⟩
      simp only [checkingLine] at h
      simp only [sent_append, h.2.2, h.1, h.2.1, sent, buildCheckResult, List.nil_append]

theorem allowLoop_dropStdlib (c : CanonicalConstraint) (pkg : String) :
    ∀ (ds : List Pkg) (st : Acc),
      allowLoop c pkg (dropStdlib ds) st = allowLoop c pkg ds st := by
  intro ds
  induction ds with
  | nil => intro st; rfl
  | cons d ds ih =>
    intro st
    by_cases hi : d.Internal = true
    · have hd : dropStdlib (d :: ds) = dropStdlib ds := by simp [dropStdlib, hi]
      rw [hd, ih]
      simp [allowLoop, hi]
    · have hi' : d.Internal = false := by simpa using hi
      have hd : dropStdlib (d :: ds) = d :: dropStdlib ds := by simp [dropStdlib, hi']
      rw [hd]
      simp only [allowLoop, hi', ih]

theorem forbidLoop_dropStdlib (c : CanonicalConstraint) (pkg : String) :
    ∀ (ds : List Pkg) (st : Acc),
      forbidLoop c pkg (dropStdlib ds) st = forbidLoop c pkg ds st := by
  intro ds
  induction ds with
  | nil => intro st; rfl
  | cons d ds ih =>
    intro st
    by_cases hi : d.Internal = true
    · have hd : dropStdlib (d :: ds) = dropStdlib ds := by simp [dropStdlib, hi]
      rw [hd, ih]
      simp [forbidLoop, hi]
    · have hi' : d.Internal = false := by simpa using hi
      have hd : dropStdlib (d :: ds) = d :: dropStdlib ds := by simp [dropStdlib, hi']
      rw [hd]
      simp only [forbidLoop, hi', ih]

theorem refers_of_mem_diags_forbid (c : CanonicalConstraint) (pkg : String) (deps : List Pkg)
    (m : GoError) (h : m ∈ diags (forbidViolates c) pkg deps) : RefersToDep pkg deps m := by
  rw [mem_diags] at h
  obtain ⟨d, hd, hv, rfl⟩ := h
  refine ⟨d, hd, ?_, rfl⟩
  simp only [forbidViolates, Bool.and_eq_true, Bool.not_eq_true'] at hv
  exact hv.1

theorem refers_of_mem_diags_allow (c : CanonicalConstraint) (pkg : String) (deps : List Pkg)
    (m : GoError) (h : m ∈ diags (allowViolates c) pkg deps) : RefersToDep pkg deps m := by
  rw [mem_diags] at h
  obtain ⟨d, hd, hv, rfl⟩ := h
  refine ⟨d, hd, ?_, rfl⟩
  simp only [allowViolates, Bool.and_eq_true, Bool.not_eq_true'] at hv
  exact hv.1

theorem refers_of_mem_constraintWarns (c : CanonicalConstraint) (pkg : String)
    (deps : List Pkg) (m : GoError) (h : m ∈ constraintWarns pkg deps c) :
    RefersToDep pkg deps m := by
  unfold constraintWarns at h
  cases hk : c.kind with
  | Allow =>
    rw [hk] at h
    simp only [checkAllowConstraint_warns] at h
    by_cases hw : c.onBreak = errorLevel.Warn
    · rw [if_pos hw] at h; exact refers_of_mem_diags_allow c pkg deps m h
    · rw [if_neg hw] at h; simp at h
  | Forbid =>
    rw [hk] at h
    simp only [checkForbidConstraint_warns] at h
    by_cases hw : c.onBreak = errorLevel.Warn
    · rw [if_pos hw] at h; exact refers_of_mem_diags_forbid c pkg deps m h
    · rw [if_neg hw] at h; simp at h
  | other k => rw [hk] at h; simp at h

theorem refers_of_mem_constraintErrs (c : CanonicalConstraint) (pkg : String)
    (deps : List Pkg) (m : GoError) (h : m ∈ constraintErrs pkg deps c) :
    RefersToDep pkg deps m ∨ ∃ k, c.kind = constraintKind.other k ∧ m = unknownKindMsg k := by
  unfold constraintErrs at h
  cases hk : c.kind with
  | Allow =>
    rw [hk] at h
    simp only [checkAllowConstraint_errs] at h
    by_cases hw : c.onBreak = errorLevel.Warn
    · rw [if_pos hw] at h; simp at h
    · rw [if_neg hw] at h; exact Or.inl (refers_of_mem_diags_allow c pkg deps m h)
  | Forbid =>
    rw [hk] at h
    simp only [checkForbidConstraint_errs] at h
    by_cases hw : c.onBreak = errorLevel.Warn
    · rw [if_pos hw] at h; simp at h
    · rw [if_neg hw] at h; exact Or.inl (refers_of_mem_diags_forbid c pkg deps m h)
  | other k =>
    rw [hk] at h
    simp only [List.mem_singleton] at h
    exact Or.inr ⟨k, rfl, h⟩

theorem length_sent (l : List Event) : (sent l).length = l.countP Event.isSend := by
  induction l with
  | nil => rfl
  | cons x xs ih => cases x <;> simp [sent, Event.isSend, ih]

theorem CheckPkg_of_no_constraint (ck : Checker) (resolve : String → Except GoError Pkg)
    (pkg : String) (h : ck.policy.GetApplicableConstraints pkg = []) :
    CheckPkg ck resolve pkg =
      [checkingLine ck pkg, Event.Warningf (pkg ++ " does not have constraints."),
        Event.send { Warns := [], Errs := [] }] := by
  simp [CheckPkg, checkingLine, h, buildCheckResult]

theorem CheckPkg_of_resolve_error (ck : Checker) (resolve : String → Except GoError Pkg)
    (pkg : String) (e : GoError) (hc : ck.policy.GetApplicableConstraints pkg ≠ [])
    (hr : resolve pkg = Except.error e) :
    CheckPkg ck resolve pkg =
      [checkingLine ck pkg,
        Event.send { Warns := [],
                     Errs := ["unable to get dependencies of " ++ pkg ++ ": " ++ e] }] := by
  have h0 : ¬ (ck.policy.GetApplicableConstraints pkg).length = 0 := by
    simpa [List.length_eq_zero] using hc
  simp [CheckPkg, checkingLine, h0, hr, buildCheckResult]

theorem dependsOnMsg_inj (pkg a b : String) :
    dependsOnMsg pkg a = dependsOnMsg pkg b ↔ a = b := by
  constructor
  · intro h
    have hd := congrArg String.data h
    simp only [dependsOnMsg, String.data_append] at hd
    exact String.ext (List.append_cancel_left hd)
  · rintro rfl; rfl

/-- The number of times the message of the name `n` occurs among the messages of the
dependencies selected by a test `q` on the names of the ones not flagged stdlib. -/
theorem count_diags (q : String → Bool) (viol : Pkg → Bool)
    (hv : ∀ d, viol d = (!d.Internal && q d.Name)) (pkg n : String) (deps : List Pkg) :
    (diags viol pkg deps).count (dependsOnMsg pkg n) =
      if q n = true then occurrences deps n else 0 := by
  induction deps with
  | nil => simp [diags, occurrences]
  | cons d ds ih =>
    by_cases hn : d.Name = n
    · by_cases hvd : viol d = true
      · rw [diags_cons_true _ _ _ _ hvd, hn, List.count_cons_self, ih]
        have h2 := hv d
        rw [hvd, hn] at h2
        have h3 : (!d.Internal) = true ∧ q n = true := by
          simpa [Bool.and_eq_true] using h2.symm
        simp [occurrences, h3.2, hn, h3.1, List.countP_cons]
      · have hvd' : viol d = false := by simpa using hvd
        rw [diags_cons_false _ _ _ _ hvd', ih]
        have h2 := hv d
        rw [hvd', hn] at h2
        by_cases hq : q n = true
        · have h3 : (!d.Internal) = false := by
            rw [hq, Bool.and_true] at h2; exact h2.symm
          simp [occurrences, hq, h3, List.countP_cons]
        · simp [hq]
    · have hne : dependsOnMsg pkg d.Name ≠ dependsOnMsg pkg n := by
        intro h; exact hn ((dependsOnMsg_inj pkg _ _).mp h)
      have hocc : occurrences (d :: ds) n = occurrences ds n := by
        simp [occurrences, List.countP_cons, hn]
      rw [hocc]
      by_cases hvd : viol d = true
      · rw [diags_cons_true _ _ _ _ hvd, List.count_cons_of_ne hne.symm, ih]
      · have hvd' : viol d = false := by simpa using hvd
        rw [diags_cons_false _ _ _ _ hvd', ih]

theorem count_constraintErrs (c : CanonicalConstraint) (pkg n : String) (deps : List Pkg)
    (hk : c.kind = constraintKind.Allow ∨ c.kind = constraintKind.Forbid) :
    (constraintErrs pkg deps c).count (dependsOnMsg pkg n) =
      if (decide (c.onBreak ≠ errorLevel.Warn) && violatedBy c n) = true
      then occurrences deps n else 0 := by
  rcases hk with hk | hk
  · simp only [constraintErrs, hk, checkAllowConstraint_errs, violatedBy]
    by_cases hw : c.onBreak = errorLevel.Warn
    · simp [hw]
    · rw [if_neg hw, count_diags (fun m => !c.depPatterns.any (fun t => t.matches m))
        (allowViolates c) (fun d => rfl)]
      simp [hw]
  · simp only [constraintErrs, hk, checkForbidConstraint_errs, violatedBy]
    by_cases hw : c.onBreak = errorLevel.Warn
    · simp [hw]
    · rw [if_neg hw, count_diags (fun m => c.depPatterns.any (fun t => t.matches m))
        (forbidViolates c) (fun d => rfl)]
      simp [hw]

theorem count_constraintWarns (c : CanonicalConstraint) (pkg n : String) (deps : List Pkg)
    (hk : c.kind = constraintKind.Allow ∨ c.kind = constraintKind.Forbid) :
    (constraintWarns pkg deps c).count (dependsOnMsg pkg n) =
      if (decide (c.onBreak = errorLevel.Warn) && violatedBy c n) = true
      then occurrences deps n else 0 := by
  rcases hk with hk | hk
  · simp only [constraintWarns, hk, checkAllowConstraint_warns, violatedBy]
    by_cases hw : c.onBreak = errorLevel.Warn
    · rw [if_pos hw, count_diags (fun m => !c.depPatterns.any (fun t => t.matches m))
        (allowViolates c) (fun d => rfl)]
      simp [hw]
    · simp [hw]
  · simp only [constraintWarns, hk, checkForbidConstraint_warns, violatedBy]
    by_cases hw : c.onBreak = errorLevel.Warn
    · rw [if_pos hw, count_diags (fun m => c.depPatterns.any (fun t => t.matches m))
        (forbidViolates c) (fun d => rfl)]
      simp [hw]
    · simp [hw]

/-- Counting a message in a concatenation over constraints, each of which holds it either
`k` times or not at all. -/
theorem count_flatMap_uniform (f : CanonicalConstraint → List GoError)
    (sel : CanonicalConstraint → Bool) (m : GoError) (k : Nat) :
    ∀ cs : List CanonicalConstraint,
      (∀ c ∈ cs, (f c).count m = if sel c = true then k else 0) →
      (cs.flatMap f).count m = k * (cs.filter sel).length := by
  intro cs
  induction cs with
  | nil => intro _; simp
  | cons c cs ih =>
    intro h
    have hc := h c (List.mem_cons_self _ _)
    have hcs := ih (fun c' hc' => h c' (List.mem_cons_of_mem _ hc'))
    rw [List.flatMap_cons, List.count_append, hc, hcs]
    by_cases hs : sel c = true
    · simp [hs, Nat.mul_succ, Nat.add_comm]
    · simp [hs]

/-! ## Lemmas on `check` -/

theorem recvLoop_eq : ∀ (n : Nat) (rs : List CheckResult) (st : List Event × Nat),
    rs.length = n →
    recvLoop n rs st =
      some (st.1 ++ rs.flatMap (fun r => r.Warns.map Event.Warningf ++ r.Errs.map Event.Errorf),
        st.2 + totalErrs rs) := by
  intro n
  induction n with
  | zero =>
    intro rs st h
    have : rs = [] := List.eq_nil_of_length_eq_zero h
    subst this
    simp [recvLoop, totalErrs]
  | succ n ih =>
    intro rs st h
    cases rs with
    | nil => simp at h
    | cons r rs =>
      have hl : rs.length = n := by simpa using h
      simp only [recvLoop, ih rs _ hl, List.flatMap_cons, totalErrs, List.map_cons,
        List.sum_cons, List.append_assoc, Nat.add_assoc]

theorem check_eq (p : Policy) (pkgs : List String) (arrival : List CheckResult)
    (h : arrival.length = pkgs.length) :
    check p pkgs arrival =
      some ([Event.Infof "Checking..."] ++
          arrival.flatMap (fun r => r.Warns.map Event.Warningf ++ r.Errs.map Event.Errorf) ++
          [Event.Infof "Check done"],
        foundErrors (totalErrs arrival)) := by
  unfold check
  simp only [NewChecker, recvLoop_eq _ _ _ h, Nat.zero_add, foundErrors]
  by_cases h0 : totalErrs arrival = 0
  · simp [h0]
  · have hpos : totalErrs arrival > 0 := Nat.pos_of_ne_zero h0
    simp [h0, hpos]

theorem flatMap_sent_CheckPkg (ck : Checker) (resolve : String → Except GoError Pkg)
    (pkgs : List String) :
    pkgs.flatMap (fun pkg => sent (CheckPkg ck resolve pkg)) =
      pkgs.map (checkPkgResult ck resolve) := by
  induction pkgs with
  | nil => rfl
  | cons x xs ih => rw [List.flatMap_cons, ih, sent_CheckPkg]; rfl

theorem totalErrs_perm (a b : List CheckResult) (h : a.Perm b) : totalErrs a = totalErrs b := by
  unfold totalErrs
  exact (h.map _).sum_eq

theorem foundErrors_eq_none (k : Nat) : foundErrors k = none ↔ k = 0 := by
  unfold foundErrors
  by_cases h : k = 0 <;> simp [h]

/-! ## Lemmas on the graph walk -/

theorem getNodeLabel_total (p : Pkg) (policy : Policy) :
    ∃ l, getNodeLabel p policy = some l ∧
      (l = "UNDEFINED" ∨ l ∈ policy.components.map Prod.fst) := by
  unfold getNodeLabel Policy.ComponentsForPackage
  generalize hf : policy.components.filter (fun c => c.2.any (fun t => t.matches p.Name)) = f
  cases f with
  | nil => exact ⟨"UNDEFINED", by simp, Or.inl rfl⟩
  | cons c cs =>
    refine ⟨c.1, by simp, Or.inr ?_⟩
    have hc : c ∈ policy.components.filter (fun c => c.2.any (fun t => t.matches p.Name)) := by
      rw [hf]; exact List.mem_cons_self _ _
    exact List.mem_map_of_mem _ (List.mem_filter.mp hc).1

theorem getNodeLabel_quoteFree (p : Pkg) (policy : Policy)
    (hq : ∀ c ∈ policy.components, quoteFree c.1 = true) :
    ∃ l, getNodeLabel p policy = some l ∧ quoteFree l = true := by
  obtain ⟨l, hl, h⟩ := getNodeLabel_total p policy
  refine ⟨l, hl, ?_⟩
  rcases h with h | h
  · subst h; decide
  · obtain ⟨c, hc, rfl⟩ := List.mem_map.mp h
    exact hq c hc

theorem not_mem_of_quoteFree (s : String) (h : quoteFree s = true) : dq ∉ s.data := by
  simpa [quoteFree] using h

/-- Two lists cut at their first double quote agree on both sides of it. -/
theorem split_at_first (a : Char) :
    ∀ (A X R1 R2 : List Char), a ∉ A → a ∉ X → A ++ a :: R1 = X ++ a :: R2 →
      A = X ∧ R1 = R2 := by
  intro A
  induction A with
  | nil =>
    intro X R1 R2 _ hX h
    cases X with
    | nil => simpa using h
    | cons x X =>
      simp only [List.nil_append, List.cons_append, List.cons.injEq] at h
      exact absurd (h.1 ▸ List.mem_cons_self _ _) hX
  | cons b A ih =>
    intro X R1 R2 hA hX h
    cases X with
    | nil =>
      simp only [List.nil_append, List.cons_append, List.cons.injEq] at h
      exact absurd (h.1 ▸ List.mem_cons_self _ _) hA
    | cons x X =>
      simp only [List.cons_append, List.cons.injEq] at h
      have hA' : a ∉ A := fun hm => hA (List.mem_cons_of_mem _ hm)
      have hX' : a ∉ X := fun hm => hX (List.mem_cons_of_mem _ hm)
      obtain ⟨h1, h2⟩ := ih X R1 R2 hA' hX' h.2
      exact ⟨by rw [h.1, h1], h2⟩

theorem edgeKey_data (x y : String) :
    (edgeKey x y).data =
      dq :: (x.data ++ dq :: (' ' :: '-' :: '>' :: ' ' :: dq :: (y.data ++ [dq]))) := by
  simp [edgeKey, String.data_append, dq]

/-- The key of an edge between labels without double quotes is the key of no other pair
of labels. -/
theorem edgeKey_inj (a b x y : String) (ha : quoteFree a = true) (hb : quoteFree b = true)
    (h : edgeKey a b = edgeKey x y) : x = a ∧ y = b := by
  have ha' := not_mem_of_quoteFree a ha
  have hb' := not_mem_of_quoteFree b hb
  have hd := congrArg String.data h
  rw [edgeKey_data, edgeKey_data] at hd
  have hd' := (List.cons.injEq _ _ _ _ ▸ hd : _ ∧ _).2
  have hcount := congrArg (List.count dq) hd'
  simp only [List.count_append, List.count_cons, List.count_nil, beq_self_eq_true,
    if_true, List.count_eq_zero.mpr ha', List.count_eq_zero.mpr hb'] at hcount
  have hsp : (' ' == dq) = false := by decide
  have hmi : ('-' == dq) = false := by decide
  have hgt : ('>' == dq) = false := by decide
  simp only [hsp, hmi, hgt] at hcount
  have hx0 : List.count dq x.data = 0 := by simp at hcount; omega
  have hy0 : List.count dq y.data = 0 := by simp at hcount; omega
  have hx' : dq ∉ x.data := List.count_eq_zero.mp hx0
  obtain ⟨h1, h2⟩ := split_at_first dq _ _ _ _ ha' hx' hd'
  simp only [List.cons.injEq, true_and] at h2
  have h3 := List.append_cancel_right h2
  exact ⟨String.ext h1.symm, String.ext h3.symm⟩

theorem EdgesClean_insert (toSkip : String → Bool) (edges : List String) (a b : String)
    (ha : quoteFree a = true) (hb : quoteFree b = true)
    (hms : mustSkip a b toSkip = false) (hc : EdgesClean toSkip edges) :
    EdgesClean toSkip (edges.insert (edgeKey a b)) := by
  intro s hs x y hxy
  rcases List.mem_insert_iff.mp hs with h | h
  · subst h
    obtain ⟨rfl, rfl⟩ := edgeKey_inj a b x y ha hb hxy
    simp only [mustSkip, Bool.or_eq_false_iff, beq_eq_false_iff_ne, ne_eq] at hms
    exact ⟨hms.1.1, hms.1.2, hms.2⟩
  · exact hc s h x y hxy

mutual
/-- The walk from a node keeps the set of edges clean, and returns. -/
theorem writeDepsGraphRec_keeps (policy : Policy) (toSkip : String → Bool)
    (hq : ∀ c ∈ policy.components, quoteFree c.1 = true) :
    ∀ (p : Pkg) (edges : List String), EdgesClean toSkip edges →
      ∃ out, writeDepsGraphRec policy toSkip p edges = some out ∧ EdgesClean toSkip out
  | .mk n i ds, edges, hc => by
    obtain ⟨l, hl, hlq⟩ := getNodeLabel_quoteFree (.mk n i ds) policy hq
    rw [writeDepsGraphRec, hl]
    by_cases hs : toSkip l = true
    · exact ⟨edges, by simp [hs], hc⟩
    · obtain ⟨out, ho, hco⟩ := writeDepsLoop_keeps policy toSkip hq l hlq ds edges hc
      exact ⟨out, by simp [hs, ho], hco⟩
/-- The loop over the dependencies of a node keeps the set of edges clean, and returns. -/
theorem writeDepsLoop_keeps (policy : Policy) (toSkip : String → Bool)
    (hq : ∀ c ∈ policy.components, quoteFree c.1 = true) (from_ : String)
    (hf : quoteFree from_ = true) :
    ∀ (ds : List Pkg) (edges : List String), EdgesClean toSkip edges →
      ∃ out, writeDepsLoop policy toSkip from_ ds edges = some out ∧ EdgesClean toSkip out
  | [], edges, hc => ⟨edges, by rw [writeDepsLoop], hc⟩
  | d :: ds, edges, hc => by
    obtain ⟨l, hl, hlq⟩ := getNodeLabel_quoteFree d policy hq
    rw [writeDepsLoop, hl]
    by_cases hms : mustSkip from_ l toSkip = true
    · obtain ⟨out, ho, hco⟩ := writeDepsLoop_keeps policy toSkip hq from_ hf ds edges hc
      exact ⟨out, by simp [hms, ho], hco⟩
    · have hms' : mustSkip from_ l toSkip = false := by simpa using hms
      obtain ⟨mid, hm, hcm⟩ := writeDepsGraphRec_keeps policy toSkip hq d _
        (EdgesClean_insert toSkip edges from_ l hf hlq hms' hc)
      obtain ⟨out, ho, hco⟩ := writeDepsLoop_keeps policy toSkip hq from_ hf ds mid hcm
      exact ⟨out, by simp [hms', hm, ho], hco⟩
end

theorem collectEdges_keeps (resolvePkgDeps : String → Except GoError Pkg) (policy : Policy)
    (toSkip : String → Bool) (hq : ∀ c ∈ policy.components, quoteFree c.1 = true) :
    ∀ (pkgs : List String) (edges : List String), EdgesClean toSkip edges →
      ∃ out, collectEdges resolvePkgDeps policy toSkip pkgs edges = some out ∧
        EdgesClean toSkip out := by
  intro pkgs
  induction pkgs with
  | nil => intro edges hc; exact ⟨edges, rfl, hc⟩
  | cons pkg pkgs ih =>
    intro edges hc
    cases hr : resolvePkgDeps pkg with
    | error e =>
      obtain ⟨out, ho, hco⟩ := ih edges hc
      exact ⟨out, by simp [collectEdges, hr, ho], hco⟩
    | ok root =>
      obtain ⟨mid, hm, hcm⟩ := writeDepsGraphRec_keeps policy toSkip hq root edges hc
      obtain ⟨out, ho, hco⟩ := ih mid hcm
      exact ⟨out, by simp [collectEdges, hr, hm, ho], hco⟩

/-! ## Lemmas on stdlib-only lists, duality and direct dependencies -/

theorem diags_eq_nil_of_stdlib (viol : Pkg → Bool) (pkg : String) (deps : List Pkg)
    (hv : ∀ d, d.Internal = true → viol d = false) (hs : ∀ d ∈ deps, d.Internal = true) :
    diags viol pkg deps = [] := by
  unfold diags
  rw [List.map_eq_nil_iff, List.filter_eq_nil_iff]
  intro d hd
  simp [hv d (hs d hd)]

theorem constraintWarns_eq_nil_of_stdlib (c : CanonicalConstraint) (pkg : String)
    (deps : List Pkg) (hs : ∀ d ∈ deps, d.Internal = true) :
    constraintWarns pkg deps c = [] := by
  unfold constraintWarns
  cases hk : c.kind with
  | Allow =>
    simp only [checkAllowConstraint_warns]
    rw [diags_eq_nil_of_stdlib _ pkg deps (fun d h => by simp [allowViolates, h]) hs]
    simp
  | Forbid =>
    simp only [checkForbidConstraint_warns]
    rw [diags_eq_nil_of_stdlib _ pkg deps (fun d h => by simp [forbidViolates, h]) hs]
    simp
  | other k => rfl

theorem constraintErrs_eq_nil_of_stdlib (c : CanonicalConstraint) (pkg : String)
    (deps : List Pkg) (hk : c.kind = constraintKind.Allow ∨ c.kind = constraintKind.Forbid)
    (hs : ∀ d ∈ deps, d.Internal = true) :
    constraintErrs pkg deps c = [] := by
  unfold constraintErrs
  rcases hk with hk | hk
  · simp only [hk, checkAllowConstraint_errs]
    rw [diags_eq_nil_of_stdlib _ pkg deps (fun d h => by simp [allowViolates, h]) hs]
    simp
  · simp only [hk, checkForbidConstraint_errs]
    rw [diags_eq_nil_of_stdlib _ pkg deps (fun d h => by simp [forbidViolates, h]) hs]
    simp

theorem flatMap_eq_nil_of_forall {α β : Type} (f : α → List β) :
    ∀ l : List α, (∀ a ∈ l, f a = []) → l.flatMap f = [] := by
  intro l
  induction l with
  | nil => intro _; rfl
  | cons a l ih =>
    intro h
    rw [List.flatMap_cons, h a (List.mem_cons_self _ _),
      ih (fun b hb => h b (List.mem_cons_of_mem _ hb))]
    rfl

theorem allowLoop_directView (c : CanonicalConstraint) (pkg : String) :
    ∀ (ds1 ds2 : List Pkg) (st : Acc), directView ds1 = directView ds2 →
      allowLoop c pkg ds1 st = allowLoop c pkg ds2 st := by
  intro ds1
  induction ds1 with
  | nil =>
    intro ds2 st h
    cases ds2 with
    | nil => rfl
    | cons e es => simp [directView] at h
  | cons d ds ih =>
    intro ds2 st h
    cases ds2 with
    | nil => simp [directView] at h
    | cons e es =>
      simp only [directView, List.map_cons, List.cons.injEq, Prod.mk.injEq] at h
      obtain ⟨⟨hn, hi⟩, ht⟩ := h
      simp only [allowLoop, hn, hi]
      split
      · exact ih es st ht
      · split <;> exact ih es _ ht

theorem forbidLoop_directView (c : CanonicalConstraint) (pkg : String) :
    ∀ (ds1 ds2 : List Pkg) (st : Acc), directView ds1 = directView ds2 →
      forbidLoop c pkg ds1 st = forbidLoop c pkg ds2 st := by
  intro ds1
  induction ds1 with
  | nil =>
    intro ds2 st h
    cases ds2 with
    | nil => rfl
    | cons e es => simp [directView] at h
  | cons d ds ih =>
    intro ds2 st h
    cases ds2 with
    | nil => simp [directView] at h
    | cons e es =>
      simp only [directView, List.map_cons, List.cons.injEq, Prod.mk.injEq] at h
      obtain ⟨⟨hn, hi⟩, ht⟩ := h
      simp only [forbidLoop, hn, hi]
      split
      · exact ih es st ht
      · split <;> exact ih es _ ht

theorem constraintsLoop_directView (pkg : String) (ds1 ds2 : List Pkg)
    (h : directView ds1 = directView ds2) :
    ∀ (cs : List CanonicalConstraint) (st : Acc),
      constraintsLoop pkg ds1 cs st = constraintsLoop pkg ds2 cs st := by
  intro cs
  induction cs with
  | nil => intro st; rfl
  | cons c cs ih =>
    intro st
    cases hk : c.kind with
    | Allow =>
      simp only [constraintsLoop, hk, checkAllowConstraint,
        allowLoop_directView c pkg ds1 ds2 _ h, ih]
    | Forbid =>
      simp only [constraintsLoop, hk, checkForbidConstraint,
        forbidLoop_directView c pkg ds1 ds2 _ h, ih]
    | other k => simp only [constraintsLoop, hk, ih]

theorem mem_diags_allow_iff (c : CanonicalConstraint) (pkg : String) (deps : List Pkg)
    (d : Pkg) (hd : d ∈ deps) (hi : d.Internal = false) :
    dependsOnMsg pkg d.Name ∈ diags (allowViolates c) pkg deps ↔
      c.depPatterns.any (fun t => t.matches d.Name) = false := by
  rw [mem_diags]
  constructor
  · rintro ⟨e, _, hv, hm⟩
    have hn : d.Name = e.Name := (dependsOnMsg_inj pkg _ _).mp hm
    simp only [allowViolates, Bool.and_eq_true, Bool.not_eq_true'] at hv
    rw [hn]; exact hv.2
  · intro h
    exact ⟨d, hd, by simp [allowViolates, hi, h], rfl⟩

theorem mem_diags_forbid_iff (c : CanonicalConstraint) (pkg : String) (deps : List Pkg)
    (d : Pkg) (hd : d ∈ deps) (hi : d.Internal = false) :
    dependsOnMsg pkg d.Name ∈ diags (forbidViolates c) pkg deps ↔
      c.depPatterns.any (fun t => t.matches d.Name) = true := by
  rw [mem_diags]
  constructor
  · rintro ⟨e, _, hv, hm⟩
    have hn : d.Name = e.Name := (dependsOnMsg_inj pkg _ _).mp hm
    simp only [forbidViolates, Bool.and_eq_true, Bool.not_eq_true'] at hv
    rw [hn]; exact hv.2
  · intro h
    exact ⟨d, hd, by simp [forbidViolates, hi, h], rfl⟩

theorem checkAllowConstraint_all (c : CanonicalConstraint) (pkg : String) (deps : List Pkg) :
    (checkAllowConstraint c pkg deps).warns ++ (checkAllowConstraint c pkg deps).errs =
      diags (allowViolates c) pkg deps := by
  rw [checkAllowConstraint_warns, checkAllowConstraint_errs]
  by_cases h : c.onBreak = errorLevel.Warn <;> simp [h]

theorem checkForbidConstraint_all (c : CanonicalConstraint) (pkg : String) (deps : List Pkg) :
    (checkForbidConstraint c pkg deps).warns ++ (checkForbidConstraint c pkg deps).errs =
      diags (forbidViolates c) pkg deps := by
  rw [checkForbidConstraint_warns, checkForbidConstraint_errs]
  by_cases h : c.onBreak = errorLevel.Warn <;> simp [h]

theorem countP_allow_add_forbid (ca cf : CanonicalConstraint)
    (hp : ca.depPatterns = cf.depPatterns) (deps : List Pkg) :
    deps.countP (allowViolates ca) + deps.countP (forbidViolates cf) =
      (dropStdlib deps).length := by
  induction deps with
  | nil => rfl
  | cons d ds ih =>
    have hdrop : (dropStdlib (d :: ds)).length =
        (dropStdlib ds).length + (if d.Internal = true then 0 else 1) := by
      by_cases hi : d.Internal = true <;> simp [dropStdlib, hi]
    rw [List.countP_cons, List.countP_cons, hdrop, ← ih]
    by_cases hi : d.Internal = true
    · simp [allowViolates, forbidViolates, hi]
    · have hi' : d.Internal = false := by simpa using hi
      by_cases hm : cf.depPatterns.any (fun t => t.matches d.Name) = true
      · simp only [allowViolates, forbidViolates, hi', hp, hm]
        simp
        omega
      · have hm' : cf.depPatterns.any (fun t => t.matches d.Name) = false := by simpa using hm
        simp only [allowViolates, forbidViolates, hi', hp, hm']
        simp
        omega

/-! ## Lemmas on what the graph walk adds -/

mutual
/-- The walk from a node adds to any set the same edges, and returns. -/
theorem writeDepsGraphRec_additive (policy : Policy) (toSkip : String → Bool) :
    ∀ (p : Pkg), ∃ A : List String, ∀ E : List String,
      ∃ out, writeDepsGraphRec policy toSkip p E = some out ∧
        ∀ e, e ∈ out ↔ e ∈ E ∨ e ∈ A
  | .mk n i ds => by
    obtain ⟨l, hl, _⟩ := getNodeLabel_total (.mk n i ds) policy
    by_cases hs : toSkip l = true
    · refine ⟨[], fun E => ⟨E, ?_, by simp⟩⟩
      rw [writeDepsGraphRec, hl]; simp [hs]
    · obtain ⟨A, hA⟩ := writeDepsLoop_additive policy toSkip l ds
      refine ⟨A, fun E => ?_⟩
      obtain ⟨out, ho, hm⟩ := hA E
      exact ⟨out, by rw [writeDepsGraphRec, hl]; simp [hs, ho], hm⟩
/-- The loop over the dependencies of a node adds to any set the same edges, and
returns. -/
theorem writeDepsLoop_additive (policy : Policy) (toSkip : String → Bool) (from_ : String) :
    ∀ (ds : List Pkg), ∃ A : List String, ∀ E : List String,
      ∃ out, writeDepsLoop policy toSkip from_ ds E = some out ∧
        ∀ e, e ∈ out ↔ e ∈ E ∨ e ∈ A
  | [] => ⟨[], fun E => ⟨E, by rw [writeDepsLoop], by simp⟩⟩
  | d :: ds => by
    obtain ⟨l, hl, _⟩ := getNodeLabel_total d policy
    obtain ⟨A2, hA2⟩ := writeDepsLoop_additive policy toSkip from_ ds
    by_cases hms : mustSkip from_ l toSkip = true
    · refine ⟨A2, fun E => ?_⟩
      obtain ⟨out, ho, hm⟩ := hA2 E
      exact ⟨out, by rw [writeDepsLoop, hl]; simp [hms, ho], hm⟩
    · obtain ⟨A1, hA1⟩ := writeDepsGraphRec_additive policy toSkip d
      refine ⟨edgeKey from_ l :: (A1 ++ A2), fun E => ?_⟩
      obtain ⟨mid, hmid, hmm⟩ := hA1 (E.insert (edgeKey from_ l))
      obtain ⟨out, ho, hm⟩ := hA2 mid
      refine ⟨out, by rw [writeDepsLoop, hl]; simp [hms, hmid, ho], fun e => ?_⟩
      rw [hm, hmm, List.mem_insert_iff]
      simp only [List.mem_cons, List.mem_append]
      tauto
end

theorem writeDepsGraphRec_mono (policy : Policy) (toSkip : String → Bool) (p : Pkg)
    (E out : List String) (h : writeDepsGraphRec policy toSkip p E = some out) :
    ∀ e ∈ E, e ∈ out := by
  obtain ⟨A, hA⟩ := writeDepsGraphRec_additive policy toSkip p
  obtain ⟨out2, ho, hm⟩ := hA E
  rw [h] at ho
  cases ho
  intro e he
  exact (hm e).mpr (Or.inl he)

theorem writeDepsLoop_mono (policy : Policy) (toSkip : String → Bool) (from_ : String)
    (ds : List Pkg) (E out : List String)
    (h : writeDepsLoop policy toSkip from_ ds E = some out) :
    ∀ e ∈ E, e ∈ out := by
  obtain ⟨A, hA⟩ := writeDepsLoop_additive policy toSkip from_ ds
  obtain ⟨out2, ho, hm⟩ := hA E
  rw [h] at ho
  cases ho
  intro e he
  exact (hm e).mpr (Or.inl he)

/-- What the walk from a node adds to the empty set, it adds to every set. -/
theorem writeDepsGraphRec_from_nil (policy : Policy) (toSkip : String → Bool) (p : Pkg)
    (E out outv : List String) (h : writeDepsGraphRec policy toSkip p E = some out)
    (hv : writeDepsGraphRec policy toSkip p [] = some outv) :
    ∀ e ∈ outv, e ∈ out := by
  obtain ⟨A, hA⟩ := writeDepsGraphRec_additive policy toSkip p
  obtain ⟨o1, ho1, hm1⟩ := hA E
  obtain ⟨o2, ho2, hm2⟩ := hA []
  rw [h] at ho1
  rw [hv] at ho2
  cases ho1
  cases ho2
  intro e he
  rcases (hm2 e).mp he with h0 | h0
  · simp at h0
  · exact (hm1 e).mpr (Or.inr h0)

/-- After the loop over the dependencies, the edge to each dependency that is not passed
over is in the set, and so is every edge the walk from that dependency adds. -/
theorem writeDepsLoop_contains (policy : Policy) (toSkip : String → Bool) (from_ : String) :
    ∀ (ds : List Pkg) (E out : List String),
      writeDepsLoop policy toSkip from_ ds E = some out →
      ∀ d ∈ ds, ∀ l, getNodeLabel d policy = some l → mustSkip from_ l toSkip = false →
        edgeKey from_ l ∈ out ∧
        ∀ outv, writeDepsGraphRec policy toSkip d [] = some outv → ∀ e ∈ outv, e ∈ out := by
  intro ds
  induction ds with
  | nil => intro E out _ d hd; simp at hd
  | cons d0 ds ih =>
    intro E out h d hd l hl hms
    obtain ⟨l0, hl0, _⟩ := getNodeLabel_total d0 policy
    rw [writeDepsLoop, hl0] at h
    by_cases hms0 : mustSkip from_ l0 toSkip = true
    · simp only [hms0, if_true] at h
      rcases List.mem_cons.mp hd with rfl | hd'
      · rw [hl0] at hl
        cases hl
        rw [hms0] at hms
        exact absurd hms (by decide)
      · exact ih E out h d hd' l hl hms
    · have hms0' : mustSkip from_ l0 toSkip = false := by simpa using hms0
      simp only [hms0', Bool.false_eq_true, if_false] at h
      obtain ⟨A, hA⟩ := writeDepsGraphRec_additive policy toSkip d0
      obtain ⟨mid, hmid, _⟩ := hA (E.insert (edgeKey from_ l0))
      rw [hmid] at h
      simp only at h
      rcases List.mem_cons.mp hd with rfl | hd'
      · rw [hl0] at hl
        cases hl
        have hmono := writeDepsLoop_mono policy toSkip from_ ds mid out h
        refine ⟨hmono _ (writeDepsGraphRec_mono policy toSkip d _ mid hmid _
          (List.mem_insert_self _ _)), fun outv hv e he => ?_⟩
        exact hmono e (writeDepsGraphRec_from_nil policy toSkip d _ mid outv hmid hv e he)
      · exact ih mid out h d hd' l hl hms

/-- The loop over the dependencies is unchanged when the dependencies it passes over are
removed from the list. -/
theorem writeDepsLoop_filter (policy : Policy) (toSkip : String → Bool) (from_ : String) :
    ∀ (ds : List Pkg) (E : List String),
      writeDepsLoop policy toSkip from_ (ds.filter (fun d => !passedOver policy toSkip from_ d)) E =
        writeDepsLoop policy toSkip from_ ds E := by
  intro ds
  induction ds with
  | nil => intro E; rfl
  | cons d0 ds ih =>
    intro E
    obtain ⟨l0, hl0, _⟩ := getNodeLabel_total d0 policy
    by_cases hms0 : mustSkip from_ l0 toSkip = true
    · have hp : passedOver policy toSkip from_ d0 = true := by simp [passedOver, hl0, hms0]
      rw [List.filter_cons_of_neg (by simp [hp]), ih E]
      conv_rhs => rw [writeDepsLoop, hl0]
      simp [hms0]
    · have hms0' : mustSkip from_ l0 toSkip = false := by simpa using hms0
      have hp : passedOver policy toSkip from_ d0 = false := by simp [passedOver, hl0, hms0']
      rw [List.filter_cons_of_pos (by simp [hp])]
      rw [writeDepsLoop, hl0]
      conv_rhs => rw [writeDepsLoop, hl0]
      simp only [hms0', Bool.false_eq_true, if_false]
      cases writeDepsGraphRec policy toSkip d0 (E.insert (edgeKey from_ l0)) with
      | none => rfl
      | some mid => exact ih mid

/-! ## Lemmas on the package listing -/

theorem splitLines_line (rest : List Char) :
    ∀ l : List Char, lf ∉ l → splitLines (l ++ lf :: rest) = l :: splitLines rest := by
  intro l
  induction l with
  | nil => intro _; simp [splitLines]
  | cons c l ih =>
    intro h
    have hc : c ≠ lf := fun hc => h (hc ▸ List.mem_cons_self _ _)
    have hl : lf ∉ l := fun hm => h (List.mem_cons_of_mem _ hm)
    show splitLines (c :: (l ++ lf :: rest)) = (c :: l) :: splitLines rest
    rw [splitLines, if_neg hc, ih hl]

theorem splitLines_ne_nil : ∀ cs : List Char, splitLines cs ≠ [] := by
  intro cs
  induction cs with
  | nil => simp [splitLines]
  | cons c cs ih =>
    by_cases hc : c = lf
    · simp [splitLines, hc]
    · simp only [splitLines, hc, if_false]
      cases h : splitLines cs with
      | nil => exact absurd h ih
      | cons a t => simp

theorem listingText_data (names : List String) :
    (listingText names).data = names.flatMap (fun n => n.data ++ [lf]) := by
  induction names with
  | nil => rfl
  | cons n ns ih =>
    have h : listingText (n :: ns) = n ++ String.singleton lf ++ listingText ns := rfl
    rw [h, String.data_append, String.data_append, ih, List.flatMap_cons]
    rfl

theorem splitLines_listing :
    ∀ names : List String, (∀ n ∈ names, lf ∉ n.data) →
      splitLines (names.flatMap (fun n => n.data ++ [lf])) = names.map String.data ++ [[]] := by
  intro names
  induction names with
  | nil => intro _; rfl
  | cons n ns ih =>
    intro h
    have hn := h n (List.mem_cons_self _ _)
    have hns := ih (fun m hm => h m (List.mem_cons_of_mem _ hm))
    rw [List.flatMap_cons, List.append_assoc, List.singleton_append,
      splitLines_line _ _ hn, hns]
    rfl

theorem stringsSplit_listing (names : List String) (h : ∀ n ∈ names, lf ∉ n.data) :
    stringsSplit (listingText names) = names ++ [""] := by
  unfold stringsSplit
  rw [listingText_data, splitLines_listing names h, List.map_append, List.map_map]
  have hid : (String.mk ∘ String.data) = id := by
    funext s; rfl
  rw [hid, List.map_id]
  rfl

theorem stringsSplit_length_pos (s : String) : 1 ≤ (stringsSplit s).length := by
  unfold stringsSplit
  rw [List.length_map]
  exact List.length_pos.mpr (splitLines_ne_nil s.data)

/-! ## Forbid and allow semantics -/

/-- C1: forbid semantics. Whatever the constraint, the package and the dependency list,
`checkForbidConstraint` puts in the bucket chosen by `onBreak` exactly one message
`<pkg> depends on <d.Name>` per dependency `d` that is not flagged stdlib and whose name
is matched by some pattern of `depPatterns`, in the order of the list, and leaves the
other bucket empty; so a message is produced iff it is the message of such a dependency,
and there are as many messages as such dependencies. In scenario S1 the result is the one
error `acme/web/http depends on acme/db/pg` and no warning. -/
theorem checkForbidConstraint_semantics (c : CanonicalConstraint) (pkg : String)
    (deps : List Pkg) :
    (checkForbidConstraint c pkg deps).warns =
        (if c.onBreak = errorLevel.Warn then diags (forbidViolates c) pkg deps else []) ∧
    (checkForbidConstraint c pkg deps).errs =
        (if c.onBreak = errorLevel.Warn then [] else diags (forbidViolates c) pkg deps) ∧
    (∀ m : GoError,
        m ∈ (checkForbidConstraint c pkg deps).warns ++ (checkForbidConstraint c pkg deps).errs ↔
          ∃ d ∈ deps, d.Internal = false ∧ (∃ t ∈ c.depPatterns, t.matches d.Name = true) ∧
            m = pkg ++ " depends on " ++ d.Name) ∧
    ((checkForbidConstraint c pkg deps).warns ++ (checkForbidConstraint c pkg deps).errs).length =
        deps.countP (fun d => !d.Internal && c.depPatterns.any (fun t => t.matches d.Name)) ∧
    (checkForbidConstraint s1Constraint "acme/web/http" [Pkg.mk "acme/db/pg" false []]).warns = [] ∧
    (checkForbidConstraint s1Constraint "acme/web/http" [Pkg.mk "acme/db/pg" false []]).errs =
        ["acme/web/http depends on acme/db/pg"] ∧
    sent (CheckPkg s1Checker
        (fun _ => Except.ok (Pkg.mk "acme/web/http" false [Pkg.mk "acme/db/pg" false []]))
        "acme/web/http") =
      [{ Warns := [], Errs := ["acme/web/http depends on acme/db/pg"] }] := by
  have hw := checkForbidConstraint_warns c pkg deps
  have he := checkForbidConstraint_errs c pkg deps
  refine ⟨hw, he, ?_, ?_, by decide, by decide, by decide⟩
  · intro m
    rw [hw, he]
    have key : m ∈ diags (forbidViolates c) pkg deps ↔
        ∃ d ∈ deps, d.Internal = false ∧ (∃ t ∈ c.depPatterns, t.matches d.Name = true) ∧
          m = pkg ++ " depends on " ++ d.Name := by
      rw [mem_diags]
      simp only [forbidViolates, dependsOnMsg, Bool.and_eq_true, Bool.not_eq_true',
        List.any_eq_true, and_assoc]
    by_cases h : c.onBreak = errorLevel.Warn
    · simpa [h] using key
    · simpa [h] using key
  · rw [hw, he]
    have key := length_diags (forbidViolates c) pkg deps
    by_cases h : c.onBreak = errorLevel.Warn
    · simpa [h, forbidViolates] using key
    · simpa [h, forbidViolates] using key

/-- C2: allow semantics. Whatever the constraint, the package and the dependency list,
`checkAllowConstraint` puts in the bucket chosen by `onBreak` exactly one message
`<pkg> depends on <d.Name>` per dependency `d` that is not flagged stdlib and whose name
is matched by no pattern of `depPatterns`, in the order of the list, and leaves the other
bucket empty; so a message is produced iff it is the message of such a dependency, and
there are as many messages as such dependencies. In scenario S2 the result is one
warning and no error. -/
theorem checkAllowConstraint_semantics (c : CanonicalConstraint) (pkg : String)
    (deps : List Pkg) :
    (checkAllowConstraint c pkg deps).warns =
        (if c.onBreak = errorLevel.Warn then diags (allowViolates c) pkg deps else []) ∧
    (checkAllowConstraint c pkg deps).errs =
        (if c.onBreak = errorLevel.Warn then [] else diags (allowViolates c) pkg deps) ∧
    (∀ m : GoError,
        m ∈ (checkAllowConstraint c pkg deps).warns ++ (checkAllowConstraint c pkg deps).errs ↔
          ∃ d ∈ deps, d.Internal = false ∧ (∀ t ∈ c.depPatterns, t.matches d.Name = false) ∧
            m = pkg ++ " depends on " ++ d.Name) ∧
    ((checkAllowConstraint c pkg deps).warns ++ (checkAllowConstraint c pkg deps).errs).length =
        deps.countP (fun d => !d.Internal && !c.depPatterns.any (fun t => t.matches d.Name)) ∧
    (checkAllowConstraint s2Constraint "acme/core/x" [Pkg.mk "acme/third/y" false []]).warns =
        ["acme/core/x depends on acme/third/y"] ∧
    (checkAllowConstraint s2Constraint "acme/core/x" [Pkg.mk "acme/third/y" false []]).errs = [] ∧
    sent (CheckPkg { policy := { components := [], canonicalConstraints := [s2Constraint] } }
        (fun _ => Except.ok (Pkg.mk "acme/core/x" false [Pkg.mk "acme/third/y" false []]))
        "acme/core/x") =
      [{ Warns := ["acme/core/x depends on acme/third/y"], Errs := [] }] := by
  have hw := checkAllowConstraint_warns c pkg deps
  have he := checkAllowConstraint_errs c pkg deps
  refine ⟨hw, he, ?_, ?_, by decide, by decide, by decide⟩
  · intro m
    rw [hw, he]
    have key : m ∈ diags (allowViolates c) pkg deps ↔
        ∃ d ∈ deps, d.Internal = false ∧ (∀ t ∈ c.depPatterns, t.matches d.Name = false) ∧
          m = pkg ++ " depends on " ++ d.Name := by
      rw [mem_diags]
      simp only [allowViolates, dependsOnMsg, Bool.and_eq_true, Bool.not_eq_true',
        List.any_eq_false, Bool.not_eq_true, and_assoc]
    by_cases h : c.onBreak = errorLevel.Warn
    · simpa [h] using key
    · simpa [h] using key
  · rw [hw, he]
    have key := length_diags (allowViolates c) pkg deps
    by_cases h : c.onBreak = errorLevel.Warn
    · simpa [h, allowViolates] using key
    · simpa [h, allowViolates] using key

/-! ## Standard-library dependencies -/

/-- C3, as stated, fails: when the resolver fails on a package that has an applicable
constraint (here the package and policy of scenario S1), the published result holds an
error that refers to no dependency at all. -/
theorem stdlib_invisible_counterexample :
    ¬ (∀ r ∈ sent (CheckPkg s1Checker (fun _ => Except.error "no Go files")
          "acme/web/http"),
        ∀ m ∈ r.Warns ++ r.Errs,
          ∃ d : Pkg, d.Internal = false ∧ m = "acme/web/http" ++ " depends on " ++ d.Name) := by
  intro h
  have hs : sent (CheckPkg s1Checker (fun _ => Except.error "no Go files")
      "acme/web/http") =
      [{ Warns := [], Errs := ["unable to get dependencies of acme/web/http: no Go files"] }] := by
    decide
  rw [hs] at h
  obtain ⟨d, -, hm⟩ := h _ (List.mem_singleton.mpr rfl)
    "unable to get dependencies of acme/web/http: no Go files" (by simp)
  have hd := congrArg (fun t : String => t.data.head?) hm
  simp [String.data_append] at hd

/-- C3, amended: `checkAllowConstraint` and `checkForbidConstraint` behave on a dependency
list exactly as on the list with every stdlib-flagged dependency removed (same warns,
same errs, same debug lines), so that every diagnostic in the result published by
`CheckPkg` is the resolver-failure error, or the error of a constraint of unknown kind,
or refers to a dependency `d` of the resolved root with `d.Internal = false`. -/
theorem stdlib_invisible (c : CanonicalConstraint) (deps : List Pkg) (ck : Checker)
    (resolve : String → Except GoError Pkg) (pkg : String) :
    checkAllowConstraint c pkg deps = checkAllowConstraint c pkg (dropStdlib deps) ∧
    checkForbidConstraint c pkg deps = checkForbidConstraint c pkg (dropStdlib deps) ∧
    (∀ r ∈ sent (CheckPkg ck resolve pkg), ∀ m ∈ r.Warns ++ r.Errs,
      (∃ e, resolve pkg = Except.error e ∧
          m = "unable to get dependencies of " ++ pkg ++ ": " ++ e) ∨
      (∃ c' ∈ ck.policy.GetApplicableConstraints pkg, ∃ k,
          c'.kind = constraintKind.other k ∧ m = unknownKindMsg k) ∨
      (∃ root, resolve pkg = Except.ok root ∧ RefersToDep pkg root.Deps m)) := by
  refine ⟨?_, ?_, ?_⟩
  · simp only [checkAllowConstraint, allowLoop_dropStdlib]
  · simp only [checkForbidConstraint, forbidLoop_dropStdlib]
  · intro r hr m hm
    rw [sent_CheckPkg, List.mem_singleton] at hr
    subst hr
    unfold checkPkgResult at hm
    by_cases h0 : (ck.policy.GetApplicableConstraints pkg).length = 0
    · simp [h0] at hm
    · rw [if_neg h0] at hm
      cases hres : resolve pkg with
      | error e =>
        rw [hres] at hm
        simp only [List.nil_append, List.mem_singleton] at hm
        exact Or.inl ⟨e, rfl, hm⟩
      | ok root =>
        rw [hres] at hm
        simp only [List.mem_append, List.mem_flatMap] at hm
        rcases hm with ⟨c', hc', hm⟩ | ⟨c', hc', hm⟩
        · exact Or.inr (Or.inr ⟨root, rfl, refers_of_mem_constraintWarns c' pkg root.Deps m hm⟩)
        · rcases refers_of_mem_constraintErrs c' pkg root.Deps m hm with h | ⟨k, hk, hmk⟩
          · exact Or.inr (Or.inr ⟨root, rfl, h⟩)
          · exact Or.inr (Or.inl ⟨c', hc', k, hk, hmk⟩)

/-! ## The three paths of `CheckPkg` -/

/-- C4, as stated, fails on the text of the warning: in scenario S4 the warning that
`CheckPkg` emits is not `acme/other does not have constraints`, the code ends the line
with a full stop. -/
theorem CheckPkg_no_constraint_counterexample :
    s1Checker.policy.GetApplicableConstraints "acme/other" = [] ∧
    (CheckPkg s1Checker (fun _ => Except.error "unused") "acme/other").filter
        Event.isWarning ≠
      [Event.Warningf ("acme/other" ++ " does not have constraints")] := by
  decide

/-- C4, amended: for every package and policy such that `GetApplicableConstraints` is
empty, `CheckPkg` emits the debug line, then one warning, whose text is
`<pkg> does not have constraints.` (with the final full stop), and no error, and publishes
an empty result (no warns, no errs), whatever the resolver is: it is not consulted. -/
theorem CheckPkg_no_constraint (ck : Checker) (resolve : String → Except GoError Pkg)
    (pkg : String) (h : ck.policy.GetApplicableConstraints pkg = []) :
    CheckPkg ck resolve pkg =
      [checkingLine ck pkg, Event.Warningf (pkg ++ " does not have constraints."),
        Event.send { Warns := [], Errs := [] }] ∧
    (CheckPkg ck resolve pkg).filter Event.isWarning =
      [Event.Warningf (pkg ++ " does not have constraints.")] ∧
    (CheckPkg ck resolve pkg).filter Event.isError = [] ∧
    sent (CheckPkg ck resolve pkg) = [{ Warns := [], Errs := [] }] ∧
    (∀ resolve2 : String → Except GoError Pkg,
      CheckPkg ck resolve2 pkg = CheckPkg ck resolve pkg) := by
  have hq := CheckPkg_of_no_constraint ck resolve pkg h
  refine ⟨hq, ?_, ?_, ?_, ?_⟩
  · rw [hq]; simp [checkingLine, Event.isWarning]
  · rw [hq]; simp [checkingLine, Event.isError]
  · rw [hq]; simp [checkingLine, sent]
  · intro resolve2
    rw [hq, CheckPkg_of_no_constraint ck resolve2 pkg h]

/-- Scenario S4: the package `acme/other` under the policy of scenario S1. -/
theorem CheckPkg_no_constraint_witness :
    s1Checker.policy.GetApplicableConstraints "acme/other" = [] ∧
    sent (CheckPkg s1Checker (fun _ => Except.error "unused") "acme/other") =
      [{ Warns := [], Errs := [] }] :=
  ⟨by decide,
    (CheckPkg_no_constraint s1Checker (fun _ => Except.error "unused")
      "acme/other" (by decide)).2.2.2.1⟩

/-- C5: for every package that has at least one applicable constraint, if the resolver
fails with cause `e` then `CheckPkg` performs the debug line and one send, of a result
whose warns are empty and whose errs are the one error
`unable to get dependencies of <pkg>: <e>`; no constraint is evaluated: nothing else is
logged, and the result is the same for every other policy with an applicable
constraint. -/
theorem CheckPkg_resolve_error (ck : Checker) (resolve : String → Except GoError Pkg)
    (pkg : String) (e : GoError) (hc : ck.policy.GetApplicableConstraints pkg ≠ [])
    (hr : resolve pkg = Except.error e) :
    CheckPkg ck resolve pkg =
      [checkingLine ck pkg,
        Event.send { Warns := [],
                     Errs := ["unable to get dependencies of " ++ pkg ++ ": " ++ e] }] ∧
    sent (CheckPkg ck resolve pkg) =
      [{ Warns := [], Errs := ["unable to get dependencies of " ++ pkg ++ ": " ++ e] }] ∧
    (∀ ck2 : Checker, ck2.policy.GetApplicableConstraints pkg ≠ [] →
      sent (CheckPkg ck2 resolve pkg) = sent (CheckPkg ck resolve pkg)) := by
  have hq := CheckPkg_of_resolve_error ck resolve pkg e hc hr
  refine ⟨hq, ?_, ?_⟩
  · rw [hq]; simp [checkingLine, sent]
  · intro ck2 hc2
    rw [hq, CheckPkg_of_resolve_error ck2 resolve pkg e hc2 hr]
    simp [checkingLine, sent]

/-- The package of scenario S1 with a failing resolver. -/
theorem CheckPkg_resolve_error_witness :
    s1Checker.policy.GetApplicableConstraints "acme/web/http" ≠ [] ∧
    sent (CheckPkg s1Checker (fun _ => Except.error "no Go files")
        "acme/web/http") =
      [{ Warns := [],
         Errs := ["unable to get dependencies of " ++ "acme/web/http" ++ ": " ++ "no Go files"] }] :=
  ⟨by decide,
    (CheckPkg_resolve_error s1Checker (fun _ => Except.error "no Go files")
      "acme/web/http" "no Go files" (by decide) rfl).2.1⟩

/-- C9: for every package, policy and resolver, one call of `CheckPkg` sends exactly one
result on the channel, as its last effect: the empty result when no constraint applies,
the result with the resolver error when the resolver fails, the result of the constraint
loop otherwise. -/
theorem CheckPkg_sends_once (ck : Checker) (resolve : String → Except GoError Pkg)
    (pkg : String) :
    (CheckPkg ck resolve pkg).countP Event.isSend = 1 ∧
    sent (CheckPkg ck resolve pkg) = [checkPkgResult ck resolve pkg] ∧
    (∃ init : List Event, CheckPkg ck resolve pkg =
        init ++ [Event.send (checkPkgResult ck resolve pkg)] ∧ init.countP Event.isSend = 0) := by
  have hs := sent_CheckPkg ck resolve pkg
  have hl : (CheckPkg ck resolve pkg).countP Event.isSend = 1 := by
    rw [← length_sent, hs]; rfl
  refine ⟨hl, hs, ?_⟩
  have hlast : ∃ init r, CheckPkg ck resolve pkg = init ++ [Event.send r] := by
    unfold CheckPkg
    by_cases h0 : (ck.policy.GetApplicableConstraints pkg).length = 0
    · simp only [h0, if_true]
      exact ⟨[_, _], _, rfl⟩
    · simp only [h0, if_false]
      cases hres : resolve pkg with
      | error e => exact ⟨[_], _, rfl⟩
      | ok root => exact ⟨_, _, rfl⟩
  obtain ⟨init, r, hq⟩ := hlast
  have hsi : sent init ++ [r] = [checkPkgResult ck resolve pkg] := by
    rw [← hs, hq, sent_append]; rfl
  have hlen := congrArg List.length hsi
  simp only [List.length_append, List.length_singleton] at hlen
  have hinit : sent init = [] := List.eq_nil_of_length_eq_zero (by omega)
  rw [hinit] at hsi
  simp only [List.nil_append, List.cons.injEq, and_true] at hsi
  refine ⟨init, by rw [hq, hsi], ?_⟩
  rw [← length_sent, hinit]; rfl

/-! ## Severity, order and the exit status -/

/-- C6: severity bucketing. `appendByLevel` appends the message to exactly one of the two
sequences and returns the other unchanged, the existing elements staying in front: to
`w` iff the level is `Warn`, to `e` iff it is anything else. So a single allow or forbid
constraint whose `onBreak` is `Warn` yields no errs, and one with any other `onBreak`
yields no warns. -/
theorem appendByLevel_bucketing (w e : List GoError) (level : errorLevel) (msg : String)
    (c : CanonicalConstraint) (pkg : String) (deps : List Pkg) :
    appendByLevel w e level msg =
      (if level = errorLevel.Warn then (w ++ [msg], e) else (w, e ++ [msg])) ∧
    (((appendByLevel w e level msg).1 = w ++ [msg] ∧ (appendByLevel w e level msg).2 = e) ↔
      level = errorLevel.Warn) ∧
    (((appendByLevel w e level msg).1 = w ∧ (appendByLevel w e level msg).2 = e ++ [msg]) ↔
      level ≠ errorLevel.Warn) ∧
    (if c.onBreak = errorLevel.Warn then
      (checkAllowConstraint c pkg deps).errs = [] ∧ (checkForbidConstraint c pkg deps).errs = []
    else
      (checkAllowConstraint c pkg deps).warns = [] ∧
        (checkForbidConstraint c pkg deps).warns = []) := by
  refine ⟨rfl, ?_, ?_, ?_⟩
  · by_cases h : level = errorLevel.Warn
    · simp [appendByLevel, h]
    · simp [appendByLevel, h]
  · by_cases h : level = errorLevel.Warn
    · simp [appendByLevel, h]
    · simp [appendByLevel, h]
  · by_cases h : c.onBreak = errorLevel.Warn
    · simp [h, checkAllowConstraint_errs, checkForbidConstraint_errs]
    · simp [h, checkAllowConstraint_warns, checkForbidConstraint_warns]

/-- C7: ordering without deduplication. When the resolver succeeds, the warns
(respectively errs) published by `CheckPkg` are the concatenation, in the order of the
applicable constraints, of the warns (respectively errs) of each constraint; the
diagnostics of one allow or forbid constraint follow the order of the dependency list of
the root; and nothing is deduplicated: when the applicable constraints are all of kind
allow or forbid, the message of a dependency name is published among the errs (warns) once
per entry of that name in the list and per applicable constraint of severity other than
warn (of severity warn) that the name breaks. -/
theorem CheckPkg_ordering (ck : Checker) (resolve : String → Except GoError Pkg)
    (pkg : String) (root : Pkg) (hr : resolve pkg = Except.ok root) :
    sent (CheckPkg ck resolve pkg) =
      [{ Warns := (ck.policy.GetApplicableConstraints pkg).flatMap
                    (constraintWarns pkg root.Deps),
         Errs := (ck.policy.GetApplicableConstraints pkg).flatMap
                    (constraintErrs pkg root.Deps) }] ∧
    (∀ c : CanonicalConstraint,
      constraintWarns pkg root.Deps c =
        (match c.kind with
          | .Allow => if c.onBreak = errorLevel.Warn
              then (root.Deps.filter (allowViolates c)).map (fun d => pkg ++ " depends on " ++ d.Name)
              else []
          | .Forbid => if c.onBreak = errorLevel.Warn
              then (root.Deps.filter (forbidViolates c)).map (fun d => pkg ++ " depends on " ++ d.Name)
              else []
          | .other _ => []) ∧
      constraintErrs pkg root.Deps c =
        (match c.kind with
          | .Allow => if c.onBreak = errorLevel.Warn then []
              else (root.Deps.filter (allowViolates c)).map (fun d => pkg ++ " depends on " ++ d.Name)
          | .Forbid => if c.onBreak = errorLevel.Warn then []
              else (root.Deps.filter (forbidViolates c)).map (fun d => pkg ++ " depends on " ++ d.Name)
          | .other k => [unknownKindMsg k])) ∧
    ((∀ c ∈ ck.policy.GetApplicableConstraints pkg,
        c.kind = constraintKind.Allow ∨ c.kind = constraintKind.Forbid) →
      ∀ n : String, ∀ r ∈ sent (CheckPkg ck resolve pkg),
        r.Errs.count (pkg ++ " depends on " ++ n) =
          occurrences root.Deps n *
            ((ck.policy.GetApplicableConstraints pkg).filter
              (fun c => decide (c.onBreak ≠ errorLevel.Warn) && violatedBy c n)).length ∧
        r.Warns.count (pkg ++ " depends on " ++ n) =
          occurrences root.Deps n *
            ((ck.policy.GetApplicableConstraints pkg).filter
              (fun c => decide (c.onBreak = errorLevel.Warn) && violatedBy c n)).length) := by
  have hs : sent (CheckPkg ck resolve pkg) =
      [{ Warns := (ck.policy.GetApplicableConstraints pkg).flatMap
                    (constraintWarns pkg root.Deps),
         Errs := (ck.policy.GetApplicableConstraints pkg).flatMap
                    (constraintErrs pkg root.Deps) }] := by
    rw [sent_CheckPkg]
    unfold checkPkgResult
    by_cases h0 : (ck.policy.GetApplicableConstraints pkg).length = 0
    · have hnil := List.eq_nil_of_length_eq_zero h0
      simp [hnil]
    · simp [h0, hr]
  refine ⟨hs, ?_, ?_⟩
  · intro c
    constructor
    · unfold constraintWarns
      cases hk : c.kind <;>
        simp only [checkAllowConstraint_warns, checkForbidConstraint_warns, diags, dependsOnMsg]
    · unfold constraintErrs
      cases hk : c.kind <;>
        simp only [checkAllowConstraint_errs, checkForbidConstraint_errs, diags, dependsOnMsg]
  · intro hk n r hrm
    rw [hs, List.mem_singleton] at hrm
    subst hrm
    constructor
    · exact count_flatMap_uniform (constraintErrs pkg root.Deps) _ (dependsOnMsg pkg n) _ _
        (fun c hc => count_constraintErrs c pkg n root.Deps (hk c hc))
    · exact count_flatMap_uniform (constraintWarns pkg root.Deps) _ (dependsOnMsg pkg n) _ _
        (fun c hc => count_constraintWarns c pkg n root.Deps (hk c hc))

/-- Two overlapping forbid constraints of severity error: the edge is reported twice. -/
theorem CheckPkg_ordering_witness :
    sent (CheckPkg overlapChecker
        (fun _ => Except.ok (Pkg.mk "acme/web/http" false [Pkg.mk "acme/db/pg" false []]))
        "acme/web/http") =
      [{ Warns := [],
         Errs := ["acme/web/http depends on acme/db/pg",
                  "acme/web/http depends on acme/db/pg"] }] :=
  (CheckPkg_ordering overlapChecker
    (fun _ => Except.ok (Pkg.mk "acme/web/http" false [Pkg.mk "acme/db/pg" false []]))
    "acme/web/http" (Pkg.mk "acme/web/http" false [Pkg.mk "acme/db/pg" false []]) rfl).1.trans
    (by decide)

/-- C8: for every list of `N` packages and every `N` results received, `check` returns,
and it returns no error iff the total number of errs over the results is zero, and the
error `found K error(s)` otherwise, `K` being the sum of the numbers of errs of the
results. The outcome is the same for every order of arrival, does not depend on the
warns, and is determined by the results `CheckPkg` sends for the packages; on the empty
package list no error is returned. -/
theorem check_outcome (p : Policy) (pkgs : List String) (arrival : List CheckResult)
    (h : arrival.length = pkgs.length) :
    (∃ tr, check p pkgs arrival = some (tr, foundErrors (totalErrs arrival))) ∧
    (foundErrors (totalErrs arrival) = none ↔
      (arrival.map (fun r => r.Errs.length)).sum = 0) ∧
    (totalErrs arrival ≠ 0 → foundErrors (totalErrs arrival) =
      some ("found " ++ toString (arrival.map (fun r => r.Errs.length)).sum ++ " error(s)")) ∧
    (∀ arrival2 : List CheckResult, arrival2.Perm arrival →
      (check p pkgs arrival2).map Prod.snd = (check p pkgs arrival).map Prod.snd) ∧
    (∀ arrival2 : List CheckResult,
      arrival2.map (fun r => r.Errs) = arrival.map (fun r => r.Errs) →
      (check p pkgs arrival2).map Prod.snd = (check p pkgs arrival).map Prod.snd) ∧
    (∀ (ck : Checker) (resolve : String → Except GoError Pkg),
      IsArrival ck resolve pkgs arrival →
      (check p pkgs arrival).map Prod.snd =
        some (foundErrors (pkgs.map (fun pkg => (checkPkgResult ck resolve pkg).Errs.length)).sum)) ∧
    (check p [] []).map Prod.snd = some none := by
  have hq := check_eq p pkgs arrival h
  refine ⟨⟨_, hq⟩, ?_, ?_, ?_, ?_, ?_, ?_⟩
  · rw [foundErrors_eq_none]; rfl
  · intro h0
    unfold foundErrors
    rw [if_neg h0]
    rfl
  · intro arrival2 hp
    have h2 : arrival2.length = pkgs.length := by rw [hp.length_eq, h]
    rw [hq, check_eq p pkgs arrival2 h2, totalErrs_perm _ _ hp]
    rfl
  · intro arrival2 he
    have hlen : arrival2.length = pkgs.length := by
      have := congrArg List.length he
      simpa [h] using this
    have ht : totalErrs arrival2 = totalErrs arrival := by
      unfold totalErrs
      have := congrArg (List.map List.length) he
      simpa [List.map_map, Function.comp] using congrArg List.sum this
    rw [hq, check_eq p pkgs arrival2 hlen, ht]
    rfl
  · intro ck resolve ha
    unfold IsArrival at ha
    rw [flatMap_sent_CheckPkg] at ha
    rw [hq, totalErrs_perm _ _ ha]
    simp only [totalErrs, List.map_map, Option.map_some']
    rfl
  · simp [check, NewChecker, recvLoop]

/-- Two results in the order opposite to the packages: one error and two errors give
`found 3 error(s)`. -/
theorem check_outcome_witness :
    ([{ Warns := ["w"], Errs := ["y", "z"] }, { Warns := [], Errs := ["x"] }] :
        List CheckResult).length = ["a", "b"].length ∧
    ∃ tr, check s1Policy ["a", "b"]
        [{ Warns := ["w"], Errs := ["y", "z"] }, { Warns := [], Errs := ["x"] }] =
      some (tr, foundErrors (totalErrs
        [{ Warns := ["w"], Errs := ["y", "z"] }, { Warns := [], Errs := ["x"] }])) :=
  ⟨rfl, (check_outcome s1Policy ["a", "b"]
    [{ Warns := ["w"], Errs := ["y", "z"] }, { Warns := [], Errs := ["x"] }] rfl).1⟩

/-! ## The edges of the graph -/

/-- C10, as stated, fails: with a component named `a" -> "a" -> "a` and no skipped label,
the walk of `p/a → p/b` from the empty set adds the edge from `a` to that component, whose
key is also the key of the self-loop on the label `a" -> "a`. -/
theorem writeDepsGraphRec_clean_counterexample :
    EdgesClean (fun _ => false) [] ∧
    writeDepsGraphRec quotedPolicy (fun _ => false) quotedTree [] =
      some [edgeKey "a\" -> \"a" "a\" -> \"a"] ∧
    ¬ EdgesClean (fun _ => false) [edgeKey "a\" -> \"a" "a\" -> \"a"] := by
  refine ⟨?_, by decide, ?_⟩
  · intro s hs; simp at hs
  · intro h
    exact (h _ (List.mem_singleton.mpr rfl) "a\" -> \"a" "a\" -> \"a" rfl).1 rfl

/-- C10, amended: for every policy whose component names hold no double quote, every
dependency tree and every skip-set, `writeDepsGraphRec` returns, and if the set of edges
holds no self-loop key and no key of an edge with an end in the skip-set before the walk,
it holds none after; so does the loop of the graph command over the packages, which starts
from the empty set. In scenario S5 the walk gives the one edge from `A` to `C`. -/
theorem writeDepsGraphRec_clean (policy : Policy) (toSkip : String → Bool) (p : Pkg)
    (edges : List String) (hq : ∀ c ∈ policy.components, quoteFree c.1 = true)
    (hc : EdgesClean toSkip edges) :
    (∃ out, writeDepsGraphRec policy toSkip p edges = some out ∧ EdgesClean toSkip out) ∧
    (∀ (resolvePkgDeps : String → Except GoError Pkg) (pkgs : List String),
      ∃ out, collectEdges resolvePkgDeps policy toSkip pkgs [] = some out ∧
        EdgesClean toSkip out) ∧
    writeDepsGraphRec s5Policy (fun l => l == "B") s5Tree [] = some ["\"A\" -> \"C\""] := by
  refine ⟨writeDepsGraphRec_keeps policy toSkip hq p edges hc, ?_, by decide⟩
  intro resolvePkgDeps pkgs
  exact collectEdges_keeps resolvePkgDeps policy toSkip hq pkgs []
    (fun s hs => by simp at hs)

/-- Scenario S5: the walk from the empty set with the label `B` skipped. -/
theorem writeDepsGraphRec_clean_witness :
    (∀ c ∈ s5Policy.components, quoteFree c.1 = true) ∧
    EdgesClean (fun l => l == "B") [] ∧
    ∃ out, writeDepsGraphRec s5Policy (fun l => l == "B") s5Tree [] = some out ∧
      EdgesClean (fun l => l == "B") out :=
  ⟨by decide, fun s hs => by simp at hs,
    (writeDepsGraphRec_clean s5Policy (fun l => l == "B") s5Tree []
      (by decide) (fun s hs => by simp at hs)).1⟩

/-! ## Node labels -/

/-- C11: node labelling. For every package and policy, `getNodeLabel` returns, without a
panic, the first element of the list of `ComponentsForPackage` when that list is not
empty and `UNDEFINED` when it is empty; the flag that guards the access `comps[0]` is set
only when the list has a first element. In scenario S6 the label of `ext/z` is
`UNDEFINED`. -/
theorem getNodeLabel_first (p : Pkg) (policy : Policy) :
    getNodeLabel p policy =
      some (match (policy.ComponentsForPackage p.Name).1 with
        | [] => "UNDEFINED"
        | c :: _ => c) ∧
    (getNodeLabel p policy).isSome = true ∧
    ((policy.ComponentsForPackage p.Name).2 = true →
      0 < (policy.ComponentsForPackage p.Name).1.length) ∧
    ((policy.ComponentsForPackage p.Name).1 = [] →
      getNodeLabel p policy = some "UNDEFINED") ∧
    getNodeLabel (Pkg.mk "ext/z" false []) s5Policy = some "UNDEFINED" ∧
    getNodeLabel (Pkg.mk "acme/b/x" false []) s5Policy = some "B" := by
  have key : getNodeLabel p policy =
      some (match (policy.ComponentsForPackage p.Name).1 with
        | [] => "UNDEFINED"
        | c :: _ => c) := by
    unfold getNodeLabel Policy.ComponentsForPackage
    generalize (policy.components.filter
      (fun c => c.2.any (fun t => t.matches p.Name))).map Prod.fst = f
    cases f <;> simp
  refine ⟨key, by rw [key]; rfl, ?_, ?_, by decide, by decide⟩
  · unfold Policy.ComponentsForPackage
    generalize (policy.components.filter
      (fun c => c.2.any (fun t => t.matches p.Name))).map Prod.fst = f
    cases f <;> simp
  · intro h
    rw [key, h]

/-! ## Stdlib-only packages, duality, direct dependencies -/

/-- C12: for every package whose applicable constraints are all of kind allow or forbid
and whose resolver call succeeds with every dependency flagged stdlib (the empty list
included), `CheckPkg` publishes one result, with no warns and no errs. -/
theorem CheckPkg_stdlib_only (ck : Checker) (resolve : String → Except GoError Pkg)
    (pkg : String) (root : Pkg) (hr : resolve pkg = Except.ok root)
    (hk : ∀ c ∈ ck.policy.GetApplicableConstraints pkg,
      c.kind = constraintKind.Allow ∨ c.kind = constraintKind.Forbid)
    (hs : ∀ d ∈ root.Deps, d.Internal = true) :
    sent (CheckPkg ck resolve pkg) = [{ Warns := [], Errs := [] }] := by
  rw [sent_CheckPkg]
  unfold checkPkgResult
  by_cases h0 : (ck.policy.GetApplicableConstraints pkg).length = 0
  · simp [h0]
  · simp only [h0, if_false, hr]
    rw [flatMap_eq_nil_of_forall _ _
        (fun c _ => constraintWarns_eq_nil_of_stdlib c pkg root.Deps hs),
      flatMap_eq_nil_of_forall _ _
        (fun c hc => constraintErrs_eq_nil_of_stdlib c pkg root.Deps (hk c hc) hs)]

/-- The package of scenario S1 when its only dependencies are `fmt` and `os`. -/
theorem CheckPkg_stdlib_only_witness :
    (∀ c ∈ s1Checker.policy.GetApplicableConstraints "acme/web/http",
      c.kind = constraintKind.Allow ∨ c.kind = constraintKind.Forbid) ∧
    (∀ d ∈ (Pkg.mk "acme/web/http" false [Pkg.mk "fmt" true [], Pkg.mk "os" true []]).Deps,
      d.Internal = true) ∧
    sent (CheckPkg s1Checker
      (fun _ => Except.ok (Pkg.mk "acme/web/http" false [Pkg.mk "fmt" true [], Pkg.mk "os" true []]))
      "acme/web/http") = [{ Warns := [], Errs := [] }] :=
  have hk : ∀ c ∈ s1Checker.policy.GetApplicableConstraints "acme/web/http",
      c.kind = constraintKind.Allow ∨ c.kind = constraintKind.Forbid := by
    intro c hc
    have : s1Checker.policy.GetApplicableConstraints "acme/web/http" = [s1Constraint] := by
      decide
    rw [this, List.mem_singleton] at hc
    subst hc
    exact Or.inr rfl
  have hs : ∀ d ∈ (Pkg.mk "acme/web/http" false
      [Pkg.mk "fmt" true [], Pkg.mk "os" true []]).Deps, d.Internal = true := by
    intro d hd
    simp only [Pkg.Deps, List.mem_cons, List.mem_singleton, List.not_mem_nil, or_false] at hd
    rcases hd with rfl | rfl <;> rfl
  ⟨hk, hs, CheckPkg_stdlib_only s1Checker _ "acme/web/http" _ rfl hk hs⟩

/-- C17: allow/forbid duality. For every package, dependency list and pair of an allow
and a forbid constraint with the same `depPatterns` (whatever their `onBreak`), each
dependency not flagged stdlib is reported by exactly one of `checkAllowConstraint` and
`checkForbidConstraint`, and the two numbers of diagnostics add up to the number of
dependencies not flagged stdlib. -/
theorem allow_forbid_duality (ca cf : CanonicalConstraint) (pkg : String) (deps : List Pkg)
    (hp : ca.depPatterns = cf.depPatterns) :
    ((checkAllowConstraint ca pkg deps).warns ++ (checkAllowConstraint ca pkg deps).errs).length +
      ((checkForbidConstraint cf pkg deps).warns ++
        (checkForbidConstraint cf pkg deps).errs).length =
      (deps.filter (fun d => !d.Internal)).length ∧
    (∀ d ∈ deps, d.Internal = false →
      Xor'
        (pkg ++ " depends on " ++ d.Name ∈
          (checkAllowConstraint ca pkg deps).warns ++ (checkAllowConstraint ca pkg deps).errs)
        (pkg ++ " depends on " ++ d.Name ∈
          (checkForbidConstraint cf pkg deps).warns ++
            (checkForbidConstraint cf pkg deps).errs)) := by
  rw [checkAllowConstraint_all, checkForbidConstraint_all]
  refine ⟨?_, ?_⟩
  · rw [length_diags, length_diags]
    exact countP_allow_add_forbid ca cf hp deps
  · intro d hd hi
    have ha := mem_diags_allow_iff ca pkg deps d hd hi
    have hf := mem_diags_forbid_iff cf pkg deps d hd hi
    rw [hp] at ha
    unfold dependsOnMsg at ha hf
    by_cases hm : cf.depPatterns.any (fun t => t.matches d.Name) = true
    · exact Or.inr ⟨hf.mpr hm, fun h => by rw [ha.mp h] at hm; exact absurd hm (by decide)⟩
    · have hm' : cf.depPatterns.any (fun t => t.matches d.Name) = false := by simpa using hm
      exact Or.inl ⟨ha.mpr hm', fun h => hm (hf.mp h)⟩

/-- The constraint of scenario S1 and the allow constraint with the same patterns, on one
stdlib and one other dependency. -/
theorem allow_forbid_duality_witness :
    ({ s1Constraint with kind := constraintKind.Allow } : CanonicalConstraint).depPatterns =
      s1Constraint.depPatterns ∧
    ((checkAllowConstraint { s1Constraint with kind := constraintKind.Allow } "acme/web/http"
        flatRoot.Deps).warns ++
      (checkAllowConstraint { s1Constraint with kind := constraintKind.Allow } "acme/web/http"
        flatRoot.Deps).errs).length +
      ((checkForbidConstraint s1Constraint "acme/web/http" flatRoot.Deps).warns ++
        (checkForbidConstraint s1Constraint "acme/web/http" flatRoot.Deps).errs).length =
      (flatRoot.Deps.filter (fun d => !d.Internal)).length :=
  ⟨rfl, (allow_forbid_duality { s1Constraint with kind := constraintKind.Allow } s1Constraint
    "acme/web/http" flatRoot.Deps rfl).1⟩

/-- C18: direct dependencies only. For every two resolved trees whose roots have the same
direct dependencies (names and stdlib flags, in order), `CheckPkg` performs the same
effects and publishes the same result, whatever the deeper levels hold; and every
diagnostic it publishes is the message of a direct dependency of the root, or the error
of a constraint of unknown kind: a package that is only reachable through another one is
in no diagnostic. -/
theorem CheckPkg_direct_only (ck : Checker) (resolve1 resolve2 : String → Except GoError Pkg)
    (pkg : String) (root1 root2 : Pkg) (h1 : resolve1 pkg = Except.ok root1)
    (h2 : resolve2 pkg = Except.ok root2)
    (hd : root1.Deps.map (fun d => (d.Name, d.Internal)) =
      root2.Deps.map (fun d => (d.Name, d.Internal))) :
    CheckPkg ck resolve1 pkg = CheckPkg ck resolve2 pkg ∧
    sent (CheckPkg ck resolve1 pkg) = sent (CheckPkg ck resolve2 pkg) ∧
    (∀ r ∈ sent (CheckPkg ck resolve1 pkg), ∀ m ∈ r.Warns ++ r.Errs,
      (∃ d ∈ root1.Deps, d.Internal = false ∧ m = pkg ++ " depends on " ++ d.Name) ∨
      (∃ c ∈ ck.policy.GetApplicableConstraints pkg, ∃ k,
        c.kind = constraintKind.other k ∧ m = unknownKindMsg k)) := by
  have he : CheckPkg ck resolve1 pkg = CheckPkg ck resolve2 pkg := by
    unfold CheckPkg
    simp only [h1, h2, constraintsLoop_directView pkg root1.Deps root2.Deps hd]
  refine ⟨he, by rw [he], ?_⟩
  intro r hr m hm
  rw [sent_CheckPkg, List.mem_singleton] at hr
  subst hr
  unfold checkPkgResult at hm
  by_cases h0 : (ck.policy.GetApplicableConstraints pkg).length = 0
  · simp [h0] at hm
  · rw [if_neg h0] at hm
    simp only [h1, List.mem_append, List.mem_flatMap] at hm
    rcases hm with ⟨c, hc, hm⟩ | ⟨c, hc, hm⟩
    · exact Or.inl (refers_of_mem_constraintWarns c pkg root1.Deps m hm)
    · rcases refers_of_mem_constraintErrs c pkg root1.Deps m hm with h | ⟨k, hk, hmk⟩
      · exact Or.inl h
      · exact Or.inr ⟨c, hc, k, hk, hmk⟩

/-- The direct dependencies of scenario S3, with and without a deeper level. -/
theorem CheckPkg_direct_only_witness :
    deepRoot.Deps.map (fun d => (d.Name, d.Internal)) =
      flatRoot.Deps.map (fun d => (d.Name, d.Internal)) ∧
    sent (CheckPkg s1Checker (fun _ => Except.ok deepRoot) "acme/web/http") =
      sent (CheckPkg s1Checker (fun _ => Except.ok flatRoot) "acme/web/http") :=
  ⟨by decide,
    (CheckPkg_direct_only s1Checker (fun _ => Except.ok deepRoot) (fun _ => Except.ok flatRoot)
      "acme/web/http" deepRoot flatRoot rfl rfl (by decide)).2.1⟩

/-! ## What the graph walk adds -/

/-- C13: edge completeness for direct dependencies. For every node `u` whose label `lu`
is not in the skip-set, `writeDepsGraphRec` returns a set that holds, for every direct
dependency `v` of `u` with a label `lv` different from `lu` and not in the skip-set, the
key of the edge from `lu` to `lv`, the label `UNDEFINED` included; and the edges in the
set before the call are still in it after. In scenario S6 the edges to and from
`UNDEFINED` are emitted. -/
theorem writeDepsGraphRec_direct_edges (policy : Policy) (toSkip : String → Bool) (u : Pkg)
    (edges : List String) (lu : String) (hlu : getNodeLabel u policy = some lu)
    (hs : toSkip lu = false) :
    (∃ out, writeDepsGraphRec policy toSkip u edges = some out ∧
      (∀ e ∈ edges, e ∈ out) ∧
      (∀ v ∈ u.Deps, ∀ lv, getNodeLabel v policy = some lv → lu ≠ lv → toSkip lv = false →
        edgeKey lu lv ∈ out)) ∧
    writeDepsGraphRec s5Policy (fun _ => false) s6Tree [] =
      some ["\"UNDEFINED\" -> \"C\"", "\"A\" -> \"UNDEFINED\""] := by
  refine ⟨?_, by decide⟩
  obtain ⟨A, hA⟩ := writeDepsGraphRec_additive policy toSkip u
  obtain ⟨out, ho, _⟩ := hA edges
  refine ⟨out, ho, writeDepsGraphRec_mono policy toSkip u edges out ho, ?_⟩
  intro v hv lv hlv hne hsv
  cases u with
  | mk n i ds =>
    rw [writeDepsGraphRec, hlu] at ho
    simp only [hs, Bool.false_eq_true, if_false] at ho
    have hms : mustSkip lu lv toSkip = false := by
      simp [mustSkip, hs, hsv, hne]
    exact (writeDepsLoop_contains policy toSkip lu ds edges out ho v hv lv hlv hms).1

/-- Scenario S5 without a skip-set: the edge from `A` to `B` is in the result. -/
theorem writeDepsGraphRec_direct_edges_witness :
    getNodeLabel s5Tree s5Policy = some "A" ∧
    ∃ out, writeDepsGraphRec s5Policy (fun _ => false) s5Tree [] = some out ∧
      (∀ e ∈ ([] : List String), e ∈ out) ∧
      (∀ v ∈ s5Tree.Deps, ∀ lv, getNodeLabel v s5Policy = some lv → "A" ≠ lv →
        (fun _ => false) lv = false → edgeKey "A" lv ∈ out) :=
  ⟨by decide,
    (writeDepsGraphRec_direct_edges s5Policy (fun _ => false) s5Tree [] "A" (by decide) rfl).1⟩

/-- C14, as stated, fails: in the chain `acme/a/x → acme/a/y → acme/b/z` the first two
packages are both in component `A`, the walk from `acme/a/y` adds the edge from `A` to
`B`, and the walk from `acme/a/x` adds nothing, as it goes past `acme/a/y` without walking
it. -/
theorem writeDepsGraphRec_recursion_counterexample :
    getNodeLabel sameComponentTree s5Policy = some "A" ∧
    Pkg.mk "acme/a/y" false [Pkg.mk "acme/b/z" false []] ∈ sameComponentTree.Deps ∧
    writeDepsGraphRec s5Policy (fun _ => false)
      (Pkg.mk "acme/a/y" false [Pkg.mk "acme/b/z" false []]) [] = some ["\"A\" -> \"B\""] ∧
    writeDepsGraphRec s5Policy (fun _ => false) sameComponentTree [] = some [] := by
  refine ⟨by decide, ?_, by decide, by decide⟩
  simp [sameComponentTree, Pkg.Deps]

/-- C14, amended: for every node `u` whose label is not in the skip-set and every direct
dependency `v` of `u` whose edge is added (the label of `v` differs from the label of `u`
and is not in the skip-set), the walk goes into `v`, so that every edge
`writeDepsGraphRec(v)` adds on its own is in the set after `writeDepsGraphRec(u)`. A
dependency whose edge is skipped is not walked from `u`: the result is the one of the
node with those dependencies removed. -/
theorem writeDepsGraphRec_recursion (policy : Policy) (toSkip : String → Bool) (u : Pkg)
    (edges : List String) (lu : String) (hlu : getNodeLabel u policy = some lu)
    (hs : toSkip lu = false) :
    (∃ out, writeDepsGraphRec policy toSkip u edges = some out ∧
      ∀ v ∈ u.Deps, ∀ lv, getNodeLabel v policy = some lv → lu ≠ lv → toSkip lv = false →
        ∃ outv, writeDepsGraphRec policy toSkip v [] = some outv ∧ ∀ e ∈ outv, e ∈ out) ∧
    writeDepsGraphRec policy toSkip u edges =
      writeDepsGraphRec policy toSkip
        (Pkg.mk u.Name u.Internal (u.Deps.filter (fun d => !passedOver policy toSkip lu d)))
        edges := by
  cases u with
  | mk n i ds =>
    have hlu2 : getNodeLabel (Pkg.mk n i
        (ds.filter (fun d => !passedOver policy toSkip lu d))) policy = some lu := hlu
    constructor
    · obtain ⟨A, hA⟩ := writeDepsGraphRec_additive policy toSkip (Pkg.mk n i ds)
      obtain ⟨out, ho, _⟩ := hA edges
      refine ⟨out, ho, ?_⟩
      intro v hv lv hlv hne hsv
      obtain ⟨Av, hAv⟩ := writeDepsGraphRec_additive policy toSkip v
      obtain ⟨outv, hov, _⟩ := hAv []
      refine ⟨outv, hov, ?_⟩
      rw [writeDepsGraphRec, hlu] at ho
      simp only [hs, Bool.false_eq_true, if_false] at ho
      have hms : mustSkip lu lv toSkip = false := by
        simp [mustSkip, hs, hsv, hne]
      exact (writeDepsLoop_contains policy toSkip lu ds edges out ho v hv lv hlv hms).2 outv hov
    · simp only [Pkg.Name, Pkg.Internal, Pkg.Deps]
      rw [writeDepsGraphRec, hlu, writeDepsGraphRec, hlu2]
      simp only [hs, Bool.false_eq_true, if_false]
      exact (writeDepsLoop_filter policy toSkip lu ds edges).symm

/-- Scenario S5 without a skip-set: the edge from `B` to `C`, added by the walk from the
dependency `acme/b/x`, is in the result of the walk from the root. -/
theorem writeDepsGraphRec_recursion_witness :
    getNodeLabel s5Tree s5Policy = some "A" ∧
    ∃ out, writeDepsGraphRec s5Policy (fun _ => false) s5Tree [] = some out ∧
      ∀ v ∈ s5Tree.Deps, ∀ lv, getNodeLabel v s5Policy = some lv → "A" ≠ lv →
        (fun _ => false) lv = false →
        ∃ outv, writeDepsGraphRec s5Policy (fun _ => false) v [] = some outv ∧
          ∀ e ∈ outv, e ∈ out :=
  ⟨by decide,
    (writeDepsGraphRec_recursion s5Policy (fun _ => false) s5Tree [] "A" (by decide) rfl).1⟩

/-! ## Unknown kinds, the package listing and the logger -/

/-- C15, as stated, fails on the text of the error: for a constraint of a kind that prints
as `weird`, the error that `CheckPkg` publishes is not the message with the kind between
apostrophes; the code puts the kind between backquotes. -/
theorem CheckPkg_unknown_kind_counterexample :
    sent (CheckPkg weirdChecker
        (fun _ => Except.ok (Pkg.mk "acme/x" false [Pkg.mk "y" false []])) "acme/x") ≠
      [{ Warns := [],
         Errs := ["unable to check constraints of kind " ++ apostrophe ++ "weird" ++
                    apostrophe] }] ∧
    sent (CheckPkg weirdChecker
        (fun _ => Except.ok (Pkg.mk "acme/x" false [Pkg.mk "y" false []])) "acme/x") =
      [{ Warns := [], Errs := ["unable to check constraints of kind `weird`"] }] := by
  decide

/-- C15, amended: for every applicable constraint whose kind is neither allow nor forbid,
`CheckPkg` appends to errs exactly one error, whose message is
`unable to check constraints of kind` followed by the kind between backquotes, appends
nothing to warns for that constraint, logs nothing, and goes on with the remaining
applicable constraints: the published result holds the diagnostics of the constraints
before it, then this error, then the diagnostics of the constraints after it. -/
theorem CheckPkg_unknown_kind (ck : Checker) (resolve : String → Except GoError Pkg)
    (pkg : String) (root : Pkg) (before after : List CanonicalConstraint)
    (c : CanonicalConstraint) (k : String) (hr : resolve pkg = Except.ok root)
    (ha : ck.policy.GetApplicableConstraints pkg = before ++ c :: after)
    (hk : c.kind = constraintKind.other k) :
    (∀ st : Acc, constraintsLoop pkg root.Deps (c :: after) st =
      constraintsLoop pkg root.Deps after
        { trace := st.trace, warns := st.warns,
          errs := st.errs ++ ["unable to check constraints of kind `" ++ k ++ "`"] }) ∧
    sent (CheckPkg ck resolve pkg) =
      [{ Warns := before.flatMap (constraintWarns pkg root.Deps) ++
                    after.flatMap (constraintWarns pkg root.Deps),
         Errs := before.flatMap (constraintErrs pkg root.Deps) ++
                   ["unable to check constraints of kind `" ++ k ++ "`"] ++
                   after.flatMap (constraintErrs pkg root.Deps) }] := by
  constructor
  · intro st
    simp only [constraintsLoop, hk, unknownKindMsg]
  · rw [sent_CheckPkg]
    unfold checkPkgResult
    have h0 : ¬ (ck.policy.GetApplicableConstraints pkg).length = 0 := by
      rw [ha]; simp
    simp only [h0, if_false, hr, ha, List.flatMap_append, List.flatMap_cons]
    have hw : constraintWarns pkg root.Deps c = [] := by simp [constraintWarns, hk]
    have he : constraintErrs pkg root.Deps c =
        ["unable to check constraints of kind `" ++ k ++ "`"] := by
      simp [constraintErrs, hk, unknownKindMsg]
    rw [hw, he]
    simp

/-- A constraint of unknown kind between the two forbid constraints that `acme/web/http`
breaks: both edges are still reported, around the error of the unknown kind. -/
theorem CheckPkg_unknown_kind_witness :
    betweenChecker.policy.GetApplicableConstraints "acme/web/http" =
      [s1Constraint] ++ { s1Constraint with kind := constraintKind.other "weird" } ::
        [s1Constraint] ∧
    sent (CheckPkg betweenChecker (fun _ => Except.ok flatRoot) "acme/web/http") =
      [{ Warns := [s1Constraint].flatMap (constraintWarns "acme/web/http" flatRoot.Deps) ++
                    [s1Constraint].flatMap (constraintWarns "acme/web/http" flatRoot.Deps),
         Errs := [s1Constraint].flatMap (constraintErrs "acme/web/http" flatRoot.Deps) ++
                   ["unable to check constraints of kind `" ++ "weird" ++ "`"] ++
                   [s1Constraint].flatMap (constraintErrs "acme/web/http" flatRoot.Deps) }] :=
  ⟨by decide,
    (CheckPkg_unknown_kind betweenChecker (fun _ => Except.ok flatRoot) "acme/web/http" flatRoot
      [s1Constraint] [s1Constraint] { s1Constraint with kind := constraintKind.other "weird" }
      "weird" rfl (by decide) rfl).2⟩

/-- C16: package list parsing. On a successful listing `retrievePackages` returns, without
a panic (the slice expression is in range for every text), the pieces of the standard
output between line feeds but the last; for the output of a listing, one name per line
with each line ended by a line feed, these are the names, all of them and in order, the
dropped piece being the empty one after the last line feed (the empty output gives the
empty list, the two lines `a` and `b` give `a`, `b`). On a failed listing it returns the
empty list and the error whose message is the captured standard error. -/
theorem retrievePackages_parsing (run : String → CmdOutcome) (pkgSelector : String)
    (names : List String) (errText : String) (hn : ∀ n ∈ names, lf ∉ n.data)
    (hrun : run pkgSelector = { failed := false, stdout := listingText names, stderr := errText }) :
    retrievePackages run pkgSelector = some (names, none) ∧
    stringsSplit (listingText names) = names ++ [""] ∧
    (∀ (run2 : String → CmdOutcome), (run2 pkgSelector).failed = false →
      1 ≤ (stringsSplit (run2 pkgSelector).stdout).length ∧
      retrievePackages run2 pkgSelector =
        some ((stringsSplit (run2 pkgSelector).stdout).dropLast, none)) ∧
    (∀ (run2 : String → CmdOutcome), (run2 pkgSelector).failed = true →
      retrievePackages run2 pkgSelector = some ([], some (run2 pkgSelector).stderr)) ∧
    retrievePackages (fun _ => { failed := false, stdout := "", stderr := "" }) "./..." =
      some ([], none) ∧
    retrievePackages (fun _ => { failed := false, stdout := listingText ["a", "b"], stderr := "" })
      "./..." = some (["a", "b"], none) := by
  have hs := stringsSplit_listing names hn
  refine ⟨?_, hs, ?_, ?_, by decide, by decide⟩
  · unfold retrievePackages
    simp only [hrun, Bool.false_eq_true, if_false, hs]
    simp
  · intro run2 hf
    have hp := stringsSplit_length_pos (run2 pkgSelector).stdout
    refine ⟨hp, ?_⟩
    unfold retrievePackages
    simp only [hf, Bool.false_eq_true, if_false, hp, if_true, List.dropLast_eq_take]
  · intro run2 hf
    unfold retrievePackages
    simp [hf]

/-- The listing of the two packages of scenario S1. -/
theorem retrievePackages_parsing_witness :
    (∀ n ∈ ["acme/web/http", "acme/db/pg"], lf ∉ n.data) ∧
    retrievePackages
        (fun _ => { failed := false, stdout := listingText ["acme/web/http", "acme/db/pg"],
                    stderr := "" }) "./..." =
      some (["acme/web/http", "acme/db/pg"], none) :=
  have hn : ∀ n ∈ ["acme/web/http", "acme/db/pg"], lf ∉ n.data := by decide
  ⟨hn, (retrievePackages_parsing
    (fun _ => { failed := false, stdout := listingText ["acme/web/http", "acme/db/pg"],
                stderr := "" }) "./..." ["acme/web/http", "acme/db/pg"] "" hn rfl).1⟩

/-- C19: log levels are cumulative. `buildlogger` enables, for the level `debug`, the
debug, info, warn and error functions; for `info`, the info, warn and error functions; for
`warn`, the warn and error functions; for `none`, none of the four; for `error` and for
every level that is none of `none`, `debug`, `info`, `warn`, the error function only. At
every level, an enabled function has every more severe function enabled too, and the
fatal function is enabled. -/
theorem buildlogger_cumulative (level : String) :
    buildlogger "debug" =
      { debug := some ("[DEBUG] ", Color.FgCyan), info := some ("", Color.FgGreen),
        warn := some ("", Color.FgHiYellow), err := some ("", Color.FgHiRed),
        fatal := some ("", Color.BgRed) } ∧
    buildlogger "info" =
      { debug := none, info := some ("", Color.FgGreen),
        warn := some ("", Color.FgHiYellow), err := some ("", Color.FgHiRed),
        fatal := some ("", Color.BgRed) } ∧
    buildlogger "warn" =
      { debug := none, info := none,
        warn := some ("", Color.FgHiYellow), err := some ("", Color.FgHiRed),
        fatal := some ("", Color.BgRed) } ∧
    buildlogger "none" =
      { debug := none, info := none, warn := none, err := none,
        fatal := some ("", Color.BgRed) } ∧
    buildlogger "error" =
      { debug := none, info := none, warn := none, err := some ("", Color.FgHiRed),
        fatal := some ("", Color.BgRed) } ∧
    (level ≠ "none" → level ≠ "debug" → level ≠ "info" → level ≠ "warn" →
      buildlogger level =
        { debug := none, info := none, warn := none, err := some ("", Color.FgHiRed),
          fatal := some ("", Color.BgRed) }) ∧
    ((buildlogger level).debug.isSome = true → (buildlogger level).info.isSome = true) ∧
    ((buildlogger level).info.isSome = true → (buildlogger level).warn.isSome = true) ∧
    ((buildlogger level).warn.isSome = true → (buildlogger level).err.isSome = true) ∧
    (buildlogger level).fatal.isSome = true := by
  refine ⟨by decide, by decide, by decide, by decide, by decide, ?_, ?_, ?_, ?_, rfl⟩
  · intro h1 h2 h3 h4
    simp [buildlogger, switchEntry, bodyRuns, buildLoggerFunc, h1, h2, h3, h4]
  all_goals
    unfold buildlogger switchEntry
    by_cases h1 : level = "none"
    · simp [h1, bodyRuns]
    · by_cases h2 : level = "debug"
      · simp [h2, bodyRuns, buildLoggerFunc]
      · by_cases h3 : level = "info"
        · simp [h3, bodyRuns, buildLoggerFunc]
        · by_cases h4 : level = "warn"
          · simp [h4, bodyRuns, buildLoggerFunc]
          · simp [h1, h2, h3, h4, bodyRuns, buildLoggerFunc]

end Dfence
